import Mathlib

set_option maxRecDepth 10000

namespace Flint

/-! Shallow embedding of `src/cxx/Tokenizer.cpp` (facebook flint's C++ tokenizer).

The C++ scanner works over a sentinel-terminated buffer: `tokenize` builds
`StringPiece pc(input.c_str(), input.size() + 1)`, so the buffer is the input
followed by one `'\0'` sentinel.  We model the buffer as `full = input ++
[sentinel] : List Char` and the cursor as an index `pos` into `full`; the
remaining piece `pc` is `full.drop pos`.  Machine sizes (`size_t`) are `Nat`;
the one place where 64-bit wraparound is reachable (adding `qfind`'s `npos`
return to a token length in the `#`-directive case) is modelled with an
explicit `% 2^64`.  `folly::StringPiece` values held by tokens (lexeme and
leading trivia) are borrowed views; we model a view as the corresponding
segment of `full` (start offset plus content). -/

/-- The sentinel terminator: the `'\0'` appended after the input text. -/
def sentinel : Char := Char.ofNat 0

/-- C-locale `isdigit` on a byte/char, as called by the tokenizer. -/
def cIsDigit (c : Char) : Bool := 48 ≤ c.toNat && c.toNat ≤ 57

/-- C-locale `isalpha`: ASCII letters only. -/
def cIsAlpha (c : Char) : Bool :=
  (65 ≤ c.toNat && c.toNat ≤ 90) || (97 ≤ c.toNat && c.toNat ≤ 122)

/-- C-locale `isalnum`. -/
def cIsAlnum (c : Char) : Bool := cIsAlpha c || cIsDigit c

/-- C-locale `iscntrl`: code points below 32 and DEL (127). -/
def cIsCntrl (c : Char) : Bool := c.toNat < 32 || c.toNat == 127

/-- Membership in `strchr("AaBbCcDdEeFf", c)` (with the `c != 0` guard): the
hex digit letters accepted by `munchNumber` after a `0x` prefix. -/
def cIsHexLetter (c : Char) : Bool :=
  c = 'A' || c = 'a' || c = 'B' || c = 'b' || c = 'C' || c = 'c' ||
  c = 'D' || c = 'd' || c = 'E' || c = 'e' || c = 'F' || c = 'f'

/-- Membership in `strchr("EePp", c)`: exponent markers checked for the
character preceding a `+`/`-` inside `munchNumber`. -/
def cIsExpMark (c : Char) : Bool := c = 'E' || c = 'e' || c = 'P' || c = 'p'

/-- Membership in `strchr("FfLlUu", c)`: number suffix characters. -/
def cIsSuffixChar (c : Char) : Bool :=
  c = 'F' || c = 'f' || c = 'L' || c = 'l' || c = 'U' || c = 'u'

/-- Identifier characters: `isalnum(c) || c == '_' || c == '$' || c == '@'`
from `munchIdentifier`. -/
def cIsIdentChar (c : Char) : Bool := cIsAlnum c || c = '_' || c = '$' || c = '@'

/-- The `TokenType` enumeration.  Variants appearing in `Tokenizer.cpp` keep
their source names; the fixed-length operator variants come from the dispatch
tables of the missing `Tokenizer.h` (see the table definitions below). -/
inductive TokenType where
  | TK_EOF
  | TK_IDENTIFIER
  | TK_NUMBER
  | TK_CHAR_LITERAL
  | TK_STRING_LITERAL
  -- keywords (modelled subset, see kwLookup)
  | TK_VIRTUAL | TK_INT | TK_IF | TK_ELSE | TK_RETURN | TK_CONST
  | TK_CLASS | TK_CHAR | TK_VOID | TK_FOR | TK_WHILE
  -- operators and punctuation
  | TK_TILDE | TK_COMMA | TK_SEMICOLON | TK_LPAREN | TK_RPAREN
  | TK_LSQUARE | TK_RSQUARE | TK_LCURL | TK_RCURL | TK_QUESTION
  | TK_ASSIGN | TK_EQUALS | TK_NOT | TK_NOTEQUAL
  | TK_XOR | TK_XOR_ASSIGN | TK_STAR | TK_STAR_ASSIGN
  | TK_MOD | TK_MOD_ASSIGN | TK_COLON | TK_DOUBLECOLON
  | TK_AMP | TK_AND | TK_AMP_ASSIGN
  | TK_BITOR | TK_OR | TK_OR_ASSIGN
  | TK_PLUS | TK_INCREMENT | TK_PLUS_ASSIGN
  | TK_LT | TK_LE | TK_SHL | TK_SHL_ASSIGN
  | TK_GT | TK_GE | TK_SHR | TK_SHR_ASSIGN
  | TK_DIVIDE | TK_DIVIDE_ASSIGN
  | TK_MINUS | TK_MINUS_ASSIGN | TK_DECREMENT | TK_ARROW | TK_ARROW_STAR
  | TK_DOT | TK_DOT_STAR | TK_ELLIPSIS
  -- preprocessor
  | TK_HASHLINE | TK_ERROR | TK_INCLUDE | TK_IFDEF | TK_IFNDEF
  | TK_POUNDIF | TK_UNDEF | TK_POUNDELSE | TK_ENDIF | TK_DEFINE
  | TK_PRAGMA | TK_DOUBLEPOUND | TK_POUND
deriving DecidableEq, Repr

/-- A token, as pushed by `tokenize`: kind, lexeme (borrowed view, modelled by
its content), filename, 1-based line at push time, the leading-trivia view
`(preTokenPtr, preTokenLen)` (modelled by its content), and the buffer offset
of the lexeme's first character (the `StringPiece` pointer). -/
structure Token where
  kind : TokenType
  lexeme : List Char
  file : String
  line : Nat
  trivia : List Char
  pos : Nat
deriving DecidableEq, Repr

/-- Lexical errors, one constructor per `FBEXCEPTION`/`ENFORCE` site in
`Tokenizer.cpp`, carrying exactly the data interpolated into the thrown
message at that site. -/
inductive Err where
  | unterminatedComment (rest : List Char)
  | unterminatedCharLit (rest : List Char)
  | unterminatedStringLit (rest : List Char)
  | invalidIdentifier (rest : List Char)
  | invalidNumber (rest : List Char)
  | misplacedBackslash (file : String) (line : Nat)
  | unterminatedDirectiveMessage
  | invalidChar (c : Char) (file : String) (line : Nat)
  | unrecognizedChar (file : String) (line : Nat)
  | cursorPastEnd
deriving DecidableEq, Repr

/-- Outcome of a `tokenize` call.  `err` keeps the tokens already pushed into
the caller-supplied `output` vector when the exception is thrown (the vector
is an out-parameter in C++, so the caller can observe it after the throw).
`outOfFuel` is an artifact of the fuel-indexed loop model; `cursorPastEnd`
(an `Err`) marks the C++ undefined behaviour of reading past the sentinel,
reachable only when a `#`-token's computed length swallows the sentinel. -/
inductive Result where
  | ok (toks : List Token)
  | err (e : Err) (toks : List Token)
  | outOfFuel
deriving DecidableEq, Repr

/-! ## Fixed-length token dispatch tables

Modelled from the spec: the four lookahead-tier tables are generated in the
original by `CPPLINT_FORALL_*` preprocessor macros defined in `Tokenizer.h`,
which is not under `src/`.  The table contents below follow §4.1 of the spec
(tier examples: comma/semicolon/parentheses; `=`/`==`, `&`/`&&`; `<` followed
by `<` or `=`; longest-match `<<=` and `->*`) and §3's operator taxonomy. -/

/-- Modelled from the spec: tier 1, one-character tokens with no alternate
multi-character spelling (`CPPLINT_FORALL_ONE_CHAR_TOKENS`). -/
def oneCharTok (c : Char) : Option TokenType :=
  if c = '~' then some .TK_TILDE
  else if c = ',' then some .TK_COMMA
  else if c = ';' then some .TK_SEMICOLON
  else if c = '(' then some .TK_LPAREN
  else if c = ')' then some .TK_RPAREN
  else if c = '[' then some .TK_LSQUARE
  else if c = ']' then some .TK_RSQUARE
  else if c = '{' then some .TK_LCURL
  else if c = '}' then some .TK_RCURL
  else if c = '?' then some .TK_QUESTION
  else none

/-- Modelled from the spec: tier 2, a leading character plus one optional
second character (`CPPLINT_FORALL_ONE_OR_TWO_CHAR_TOKENS`): entry
`(t1, c2, t2)` means bare kind `t1`, or kind `t2` when followed by `c2`. -/
def twoCharTok (c : Char) : Option (TokenType × Char × TokenType) :=
  if c = '=' then some (.TK_ASSIGN, '=', .TK_EQUALS)
  else if c = '!' then some (.TK_NOT, '=', .TK_NOTEQUAL)
  else if c = '^' then some (.TK_XOR, '=', .TK_XOR_ASSIGN)
  else if c = '*' then some (.TK_STAR, '=', .TK_STAR_ASSIGN)
  else if c = '%' then some (.TK_MOD, '=', .TK_MOD_ASSIGN)
  else if c = ':' then some (.TK_COLON, ':', .TK_DOUBLECOLON)
  else none

/-- Modelled from the spec: tier 2b, a leading character with two distinct
possible second characters (`CPPLINT_FORALL_ONE_OR_TWO_CHAR_TOKENS2`):
entry `(t1, c2, t2, c3, t3)`. -/
def twoChar2Tok (c : Char) : Option (TokenType × Char × TokenType × Char × TokenType) :=
  if c = '&' then some (.TK_AMP, '&', .TK_AND, '=', .TK_AMP_ASSIGN)
  else if c = '|' then some (.TK_BITOR, '|', .TK_OR, '=', .TK_OR_ASSIGN)
  else if c = '+' then some (.TK_PLUS, '+', .TK_INCREMENT, '=', .TK_PLUS_ASSIGN)
  else none

/-- Modelled from the spec: tier 3, up to three characters
(`CPPLINT_FORALL_ONE_TO_THREE_CHAR_TOKENS`): entry `(t1, c2, t2, c3, t3, c4, t4)`
means `c` alone is `t1`; `c c2` is `t2`; `c c3` is `t3` unless followed by
`c4`, in which case `c c3 c4` is `t4` (e.g. `<`, `<=`, `<<`, `<<=`). -/
def threeCharTok (c : Char) :
    Option (TokenType × Char × TokenType × Char × TokenType × Char × TokenType) :=
  if c = '<' then some (.TK_LT, '=', .TK_LE, '<', .TK_SHL, '=', .TK_SHL_ASSIGN)
  else if c = '>' then some (.TK_GT, '=', .TK_GE, '>', .TK_SHR, '=', .TK_SHR_ASSIGN)
  else none

/-- Modelled from the spec: the keyword table (`CPPLINT_FORALL_KEYWORDS` in
the missing `Tokenizer.h`, loaded into the static `keywords` map), restricted
to a representative subset; spellings not present lex as `TK_IDENTIFIER`. -/
def kwLookup (s : List Char) : Option TokenType :=
  if s = "virtual".toList then some .TK_VIRTUAL
  else if s = "int".toList then some .TK_INT
  else if s = "if".toList then some .TK_IF
  else if s = "else".toList then some .TK_ELSE
  else if s = "return".toList then some .TK_RETURN
  else if s = "const".toList then some .TK_CONST
  else if s = "class".toList then some .TK_CLASS
  else if s = "char".toList then some .TK_CHAR
  else if s = "void".toList then some .TK_VOID
  else if s = "for".toList then some .TK_FOR
  else if s = "while".toList then some .TK_WHILE
  else none

/-! ## Munchers (scans) -/

/-- Number of newline characters in a list. -/
def countNl : List Char → Nat
  | [] => 0
  | c :: r => (if c = '\n' then 1 else 0) + countNl r

/-- Length of the leading run of spaces and tabs (`munchSpaces`). -/
def spacesLen : List Char → Nat
  | [] => 0
  | c :: r => if c = ' ' || c = '\t' then spacesLen r + 1 else 0

/-- Length of the leading identifier run (`munchIdentifier`'s scan). -/
def identLen : List Char → Nat
  | [] => 0
  | c :: r => if cIsIdentChar c then identLen r + 1 else 0

/-- Scan of a C-style block comment body (after the opening `/*`), from
`munchComment`: returns `(consumed, newlines)` where `consumed` counts
characters from after `/*` through the closing `*/`, or `none` when the
sentinel (or end of buffer) is reached first. -/
def commentScan : List Char → Option (Nat × Nat)
  | [] => none
  | c :: rest =>
    if c = '\n' then (commentScan rest).map (fun p => (p.1 + 1, p.2 + 1))
    else if c = '*' then
      if rest.headD sentinel = '/' then some (2, 0)
      else (commentScan rest).map (fun p => (p.1 + 1, p.2))
    else if c = sentinel then none
    else (commentScan rest).map (fun p => (p.1 + 1, p.2))

/-- Scan of a single-line comment (after the opening `//`), from
`munchSingleLineComment`: `prev` is the previously examined character
(initially the second `/`).  A newline ends the comment and is consumed with
it, unless immediately preceded by a backslash, in which case the comment
continues; the sentinel ends the comment without being consumed.  Returns
`(consumed, newlines)`. -/
def slcScan : List Char → Char → Nat × Nat
  | [], _ => (0, 0)
  | c :: rest, prev =>
    if c = '\n' then
      if prev = '\\' then
        let p := slcScan rest c
        (p.1 + 1, p.2 + 1)
      else (1, 1)
    else if c = sentinel then (0, 0)
    else
      let p := slcScan rest c
      (p.1 + 1, p.2)

/-- Scan of a quoted literal body (after the opening quote `q`), from
`munchCharLiteral`/`munchString`: a backslash consumes exactly one following
character (counting a newline there); the scan succeeds at the closing quote
and fails at the sentinel.  Reading past the end of the buffer (a backslash
directly before the end, undefined behaviour in C++) is modelled as failure.
Returns `(consumed, newlines)` counting from after the opening quote through
the closing quote. -/
def litScan (q : Char) : List Char → Option (Nat × Nat)
  | [] => none
  | c :: rest =>
    if c = q then some (1, 0)
    else if c = '\\' then
      match rest with
      | [] => none
      | d :: rest2 =>
        (litScan q rest2).map
          (fun p => (p.1 + 2, p.2 + (if d = '\n' then 1 else 0)))
    else if c = sentinel then none
    else (litScan q rest).map (fun p => (p.1 + 1, p.2))

/-- The `munchNumber` scan.  `c0` is the first character of the number (used
by the `0x` prefix check at index 1), `prev` the previously consumed
character (used by the sign rule), `i` the count consumed so far; the four
flags mirror `sawDot`, `sawExp`, `sawX`, `sawSuffix`.  Returns the total
length consumed, or `none` for the `ENFORCE(i > 0)` failure. -/
def numScan (c0 : Char) :
    List Char → Char → Bool → Bool → Bool → Bool → Nat → Option Nat
  | [], _, _, _, _, _, i => if 0 < i then some i else none
  | c :: rest, prev, sawDot, sawExp, sawX, sawSfx, i =>
    if c = '.' && !sawDot && !sawExp && !sawSfx then
      numScan c0 rest c true sawExp sawX sawSfx (i + 1)
    else if cIsDigit c then
      numScan c0 rest c sawDot sawExp sawX sawSfx (i + 1)
    else if sawX && !sawExp && cIsHexLetter c then
      numScan c0 rest c sawDot sawExp sawX sawSfx (i + 1)
    else if c = '+' || c = '-' then
      if 0 < i && !cIsExpMark prev then some i
      else numScan c0 rest c sawDot sawExp sawX sawSfx (i + 1)
    else if !sawExp && !sawSfx && !sawX && (c = 'e' || c = 'E') then
      numScan c0 rest c sawDot true sawX sawSfx (i + 1)
    else if sawX && !sawExp && !sawSfx && (c = 'p' || c = 'P') then
      numScan c0 rest c sawDot true sawX sawSfx (i + 1)
    else if (c = 'x' || c = 'X') && i == 1 && c0 = '0' then
      numScan c0 rest c sawDot sawExp true sawSfx (i + 1)
    else if cIsSuffixChar c then
      numScan c0 rest c sawDot sawExp sawX true (i + 1)
    else if 0 < i then some i
    else none

/-- Does the keyword spelling `kw` begin the piece `s`?
(`StringPiece::startsWith`.) -/
def startsWithKw : List Char → List Char → Bool
  | [], _ => true
  | _ :: _, [] => false
  | k :: ks, c :: cs => k = c && startsWithKw ks cs

/-- Index of the first newline (`folly::qfind(pc, '\n')`), `none` when absent
(C++ returns `npos`). -/
def findNl : List Char → Option Nat
  | [] => none
  | c :: r => if c = '\n' then some 0 else (findNl r).map (· + 1)

/-- `size_t` npos, for the `qfind` miss case. -/
def npos : Nat := 2 ^ 64 - 1

/-- 64-bit wraparound modulus for the one `size_t` addition that can
overflow (`tokenLen += qfind(...)`). -/
def w64 : Nat := 2 ^ 64

/-! ## The scanning driver -/

/-- Mutable scanner state of one `tokenize` call: cursor offset, line
counter, the pending leading-trivia span `(preTokenPtr, preTokenLen)` as an
offset/length pair, and the output vector. -/
structure St where
  pos : Nat
  line : Nat
  preStart : Nat
  preLen : Nat
  out : List Token
deriving DecidableEq, Repr

/-- The leading-trivia view `StringPiece(preTokenPtr, preTokenLen)` held by
the next emitted token. -/
def triviaOf (full : List Char) (st : St) : List Char :=
  (full.drop st.preStart).take st.preLen

/-- Result of one iteration of the driver loop. -/
inductive StepRes where
  | cont (st : St)
  | done (toks : List Token)
  | fail (e : Err) (toks : List Token)
deriving DecidableEq, Repr

/-- Fold `k` consumed characters (containing `nl` counted newlines) into the
trivia accumulator: whitespace, comments, newlines, carriage returns,
backslash continuations and stray control characters. -/
def skipTrivia (st : St) (k : Nat) (nl : Nat) : St :=
  { st with pos := st.pos + k, preLen := st.preLen + k, line := st.line + nl }

/-- The shared `INSERT_TOKEN` emission point: push a fixed-length token of
`len` characters and reset the trivia accumulator (`preTokenPtr = pc.data();
preTokenLen = 0;`). -/
def emitTok (file : String) (full : List Char) (st : St) (t : TokenType)
    (len : Nat) : St :=
  { pos := st.pos + len, line := st.line, preStart := st.pos + len, preLen := 0,
    out := st.out ++
      [⟨t, (full.drop st.pos).take len, file, st.line, triviaOf full st, st.pos⟩] }

/-- A direct `output.push_back` (numbers, literals, identifiers): the munched
span becomes the lexeme, the line counter is first advanced by the `nl`
newlines counted inside the munch (the C++ munchers update `line` by
reference before the push reads it), and — exactly as in the source — the
trivia accumulator is NOT reset. -/
def pushTok (file : String) (full : List Char) (st : St) (t : TokenType)
    (len : Nat) (nl : Nat) : St :=
  { pos := st.pos + len, line := st.line + nl, preStart := st.preStart,
    preLen := st.preLen,
    out := st.out ++
      [⟨t, (full.drop st.pos).take len, file, st.line + nl, triviaOf full st,
        st.pos⟩] }

/-- The pound-directive length used for `#line`/`#warning`/`#error`:
`tokenLen = 1 + spaces + qfind(pc1, newline)` in 64-bit `size_t` arithmetic
(a missing newline adds `npos` and wraps). -/
def hashQfLen (rest : List Char) : Nat :=
  (1 + spacesLen rest +
    (match findNl (rest.drop (spacesLen rest)) with
     | some k => k
     | none => npos)) % w64

/-- The `case '#'` body: skip horizontal whitespace after the pound, then
ordered prefix matching of the directive spellings; `#line`, `#warning` and
`#error` absorb the rest of the physical line into the token. -/
def directiveStep (file : String) (full : List Char) (st : St)
    (rest : List Char) : StepRes :=
  if startsWithKw ("line".toList) (rest.drop (spacesLen rest)) then
    .cont (emitTok file full st .TK_HASHLINE (hashQfLen rest))
  else if startsWithKw ("warning".toList) (rest.drop (spacesLen rest)) = true ∨
      startsWithKw ("error".toList) (rest.drop (spacesLen rest)) = true then
    if hashQfLen rest = 0 then
      .fail .unterminatedDirectiveMessage st.out
    else .cont (emitTok file full st .TK_ERROR (hashQfLen rest))
  else if startsWithKw ("include".toList) (rest.drop (spacesLen rest)) then
    .cont (emitTok file full st .TK_INCLUDE (1 + spacesLen rest + 7))
  else if startsWithKw ("ifdef".toList) (rest.drop (spacesLen rest)) then
    .cont (emitTok file full st .TK_IFDEF (1 + spacesLen rest + 5))
  else if startsWithKw ("ifndef".toList) (rest.drop (spacesLen rest)) then
    .cont (emitTok file full st .TK_IFNDEF (1 + spacesLen rest + 6))
  else if startsWithKw ("if".toList) (rest.drop (spacesLen rest)) then
    .cont (emitTok file full st .TK_POUNDIF (1 + spacesLen rest + 2))
  else if startsWithKw ("undef".toList) (rest.drop (spacesLen rest)) then
    .cont (emitTok file full st .TK_UNDEF (1 + spacesLen rest + 5))
  else if startsWithKw ("else".toList) (rest.drop (spacesLen rest)) then
    .cont (emitTok file full st .TK_POUNDELSE (1 + spacesLen rest + 4))
  else if startsWithKw ("endif".toList) (rest.drop (spacesLen rest)) then
    .cont (emitTok file full st .TK_ENDIF (1 + spacesLen rest + 5))
  else if startsWithKw ("define".toList) (rest.drop (spacesLen rest)) then
    .cont (emitTok file full st .TK_DEFINE (1 + spacesLen rest + 6))
  else if startsWithKw ("pragma".toList) (rest.drop (spacesLen rest)) then
    .cont (emitTok file full st .TK_PRAGMA (1 + spacesLen rest + 6))
  else if startsWithKw ("#".toList) (rest.drop (spacesLen rest)) then
    .cont (emitTok file full st .TK_DOUBLEPOUND (1 + spacesLen rest + 2))
  else .cont (emitTok file full st .TK_POUND (1 + spacesLen rest + 1))

/-- The `ITS_A_NUMBER` target: munch a number at the cursor and push it
(`munchNumber` never touches the line counter). -/
def numberStep (file : String) (full : List Char) (st : St) : StepRes :=
  match numScan ((full.drop st.pos).headD sentinel) (full.drop st.pos)
      sentinel false false false false 0 with
  | some n => .cont (pushTok file full st .TK_NUMBER n 0)
  | none => .fail (.invalidNumber (full.drop st.pos)) st.out

/-- A tier-2 dispatch outcome for table entry `(t1, c2, t2)`. -/
def tier2Step (file : String) (full : List Char) (st : St) (rest : List Char)
    (t1 : TokenType) (c2 : Char) (t2 : TokenType) : StepRes :=
  if rest.headD sentinel = c2 then .cont (emitTok file full st t2 2)
  else .cont (emitTok file full st t1 1)

/-- A tier-2b dispatch outcome for table entry `(t1, c2, t2, c3, t3)`. -/
def tier2bStep (file : String) (full : List Char) (st : St) (rest : List Char)
    (t1 : TokenType) (c2 : Char) (t2 : TokenType) (c3 : Char)
    (t3 : TokenType) : StepRes :=
  if rest.headD sentinel = c2 then .cont (emitTok file full st t2 2)
  else if rest.headD sentinel = c3 then .cont (emitTok file full st t3 2)
  else .cont (emitTok file full st t1 1)

/-- A tier-3 dispatch outcome for table entry
`(t1, c2, t2, c3, t3, c4, t4)`. -/
def tier3Step (file : String) (full : List Char) (st : St) (rest : List Char)
    (t1 : TokenType) (c2 : Char) (t2 : TokenType) (c3 : Char) (t3 : TokenType)
    (c4 : Char) (t4 : TokenType) : StepRes :=
  if rest.headD sentinel = c2 then .cont (emitTok file full st t2 2)
  else if rest.headD sentinel = c3 then
    if (rest.drop 1).headD sentinel = c4 then
      .cont (emitTok file full st t4 3)
    else .cont (emitTok file full st t3 2)
  else .cont (emitTok file full st t1 1)

/-- The `case '/'` body: block comment, single-line comment, `/=`, `/`. -/
def slashStep (file : String) (full : List Char) (st : St) (c : Char)
    (rest : List Char) : StepRes :=
  if rest.headD sentinel = '*' then
    match commentScan (rest.drop 1) with
    | some (n, d) => .cont (skipTrivia st (2 + n) d)
    | none => .fail (.unterminatedComment (c :: rest)) st.out
  else if rest.headD sentinel = '/' then
    .cont (skipTrivia st (2 + (slcScan (rest.drop 1) '/').1)
      (slcScan (rest.drop 1) '/').2)
  else if rest.headD sentinel = '=' then
    .cont (emitTok file full st .TK_DIVIDE_ASSIGN 2)
  else .cont (emitTok file full st .TK_DIVIDE 1)

/-- The `case '-'` body: `--`, `-=`, `->*`, `->`, `-`. -/
def minusStep (file : String) (full : List Char) (st : St)
    (rest : List Char) : StepRes :=
  if rest.headD sentinel = '-' then
    .cont (emitTok file full st .TK_DECREMENT 2)
  else if rest.headD sentinel = '=' then
    .cont (emitTok file full st .TK_MINUS_ASSIGN 2)
  else if rest.headD sentinel = '>' then
    if (rest.drop 1).headD sentinel = '*' then
      .cont (emitTok file full st .TK_ARROW_STAR 3)
    else .cont (emitTok file full st .TK_ARROW 2)
  else .cont (emitTok file full st .TK_MINUS 1)

/-- The `case '.'` body: number, `.*`, `...`, `.`. -/
def dotStep (file : String) (full : List Char) (st : St)
    (rest : List Char) : StepRes :=
  if cIsDigit (rest.headD sentinel) = true then numberStep file full st
  else if rest.headD sentinel = '*' then
    .cont (emitTok file full st .TK_DOT_STAR 2)
  else if rest.headD sentinel = '.' ∧
      (rest.drop 1).headD sentinel = '.' then
    .cont (emitTok file full st .TK_ELLIPSIS 3)
  else .cont (emitTok file full st .TK_DOT 1)

/-- The character-literal case: munch and push, or fail unterminated. -/
def charLitStep (file : String) (full : List Char) (st : St) (c : Char)
    (rest : List Char) : StepRes :=
  match litScan '\'' rest with
  | some (n, d) => .cont (pushTok file full st .TK_CHAR_LITERAL (n + 1) d)
  | none => .fail (.unterminatedCharLit (c :: rest)) st.out

/-- The string-literal case: munch and push, or fail unterminated. -/
def stringLitStep (file : String) (full : List Char) (st : St) (c : Char)
    (rest : List Char) : StepRes :=
  match litScan '"' rest with
  | some (n, d) => .cont (pushTok file full st .TK_STRING_LITERAL (n + 1) d)
  | none => .fail (.unterminatedStringLit (c :: rest)) st.out

/-- The identifier/keyword case: munch an identifier, look it up in the
keyword table, and push the keyword kind or a generic identifier. -/
def identStep (file : String) (full : List Char) (st : St) (c : Char)
    (rest : List Char) : StepRes :=
  if identLen (c :: rest) = 0 then
    .fail (.invalidIdentifier (c :: rest)) st.out
  else
    match kwLookup ((c :: rest).take (identLen (c :: rest))) with
    | some k => .cont (pushTok file full st k (identLen (c :: rest)) 0)
    | none =>
      .cont (pushTok file full st .TK_IDENTIFIER (identLen (c :: rest)) 0)

/-- One iteration of the driver loop body (the big `switch` in `tokenize`),
for current character `c` and remaining buffer `c :: rest`. -/
def stepChar (file : String) (full : List Char) (st : St) (c : Char)
    (rest : List Char) : StepRes :=
  if c = sentinel then
    .done (st.out ++
      [⟨.TK_EOF, c :: rest, file, st.line, triviaOf full st, st.pos⟩])
  else match oneCharTok c with
  | some t => .cont (emitTok file full st t 1)
  | none => match twoCharTok c with
    | some (t1, c2, t2) => tier2Step file full st rest t1 c2 t2
    | none => match twoChar2Tok c with
      | some (t1, c2, t2, c3, t3) => tier2bStep file full st rest t1 c2 t2 c3 t3
      | none => match threeCharTok c with
        | some (t1, c2, t2, c3, t3, c4, t4) =>
          tier3Step file full st rest t1 c2 t2 c3 t3 c4 t4
        | none =>
          if c = '/' then slashStep file full st c rest
          else if c = '\\' then
            if rest.headD sentinel = '\n' ∨ rest.headD sentinel = '\r' then
              .cont (skipTrivia st 2 1)
            else .fail (.misplacedBackslash file st.line) st.out
          else if c = '\n' then .cont (skipTrivia st 1 1)
          else if c = '\r' then .cont (skipTrivia st 1 0)
          else if c = '-' then minusStep file full st rest
          else if c = ' ' ∨ c = '\t' then
            .cont (skipTrivia st (spacesLen (c :: rest)) 0)
          else if c = '`' then .fail (.invalidChar c file st.line) st.out
          else if cIsDigit c = true then numberStep file full st
          else if c = '.' then dotStep file full st rest
          else if c = '\'' then charLitStep file full st c rest
          else if c = '"' then stringLitStep file full st c rest
          else if c = '#' then directiveStep file full st rest
          else if cIsCntrl c = true then .cont (skipTrivia st 1 0)
          else if cIsAlpha c = true ∨ c = '_' ∨ c = '$' ∨ c = '@' then
            identStep file full st c rest
          else .fail (.unrecognizedChar file st.line) st.out

/-- One iteration of the driver loop: read the character at the cursor and
dispatch.  An empty remaining piece means the cursor moved past the sentinel
(C++ undefined behaviour, see `Err.cursorPastEnd`). -/
def step (file : String) (full : List Char) (st : St) : StepRes :=
  match full.drop st.pos with
  | [] => .fail .cursorPastEnd st.out
  | c :: rest => stepChar file full st c rest

/-- The driver loop (`while (1)`), indexed by fuel. -/
def run (file : String) (full : List Char) : Nat → St → Result
  | 0, _ => .outOfFuel
  | fuel + 1, st =>
    match step file full st with
    | .cont st2 => run file full fuel st2
    | .done ts => .ok ts
    | .fail e ts => .err e ts

/-- The initial scanner state: cursor at the start, line 1, empty trivia
accumulator, empty output. -/
def initSt : St := ⟨0, 1, 0, 0, []⟩

/-- `tokenize(input, filename, output)`: scan `input ++ ['\0']` from the
initial state.  Every loop iteration either consumes at least one character
or terminates, except for a degenerate `#line`-without-newline loop, so
`input.length + 2` fuel suffices for every terminating execution. -/
def tokenize (input : List Char) (file : String) : Result :=
  run file (input ++ [sentinel]) (input.length + 2) initSt

/-- Concatenation of leading trivia and lexeme over all tokens of a
successful result (the reconstruction of the input). -/
def reconOf (r : Result) : Option (List Char) :=
  match r with
  | .ok ts => some ((ts.map (fun t => t.trivia ++ t.lexeme)).flatten)
  | _ => none

/-- Does a successful result exist? -/
def isOkRes : Result → Bool
  | .ok _ => true
  | _ => false

/-- Does the error value carry a filename and a line number?  True exactly
for the constructors whose `FBEXCEPTION` message interpolates `file` and
`line`. -/
def errHasFileAndLine : Err → Bool
  | .misplacedBackslash _ _ => true
  | .invalidChar _ _ _ => true
  | .unrecognizedChar _ _ => true
  | _ => false

/-- Did tokenization fail with the misplaced-continuation error? -/
def isMisplacedErr : Result → Bool
  | .err (.misplacedBackslash _ _) _ => true
  | _ => false

/-- A character the scanner recognizes without erroring: a dispatch-table
character, one of the specially cased characters, a digit, horizontal or
vertical whitespace, or an identifier-start character. -/
def recognizedChar (c : Char) : Bool :=
  (oneCharTok c).isSome || (twoCharTok c).isSome || (twoChar2Tok c).isSome ||
  (threeCharTok c).isSome ||
  c = '/' || c = '\\' || c = '\n' || c = '\r' || c = '-' || c = ' ' ||
  c = '\t' || cIsDigit c || c = '.' || c = '\'' || c = '"' || c = '#' ||
  cIsAlpha c || c = '_' || c = '$' || c = '@'

/-- A character allowed by the restricted ("plain") input class used in the
line-accounting theorems: no quotes, no carriage return, no `#`, and no
embedded sentinel. -/
def plainChar (c : Char) : Bool :=
  !(c = '"' || c = '\'' || c = '\r' || c = '#' || c = sentinel)

/-- What one continuing driver iteration guarantees: the line counter does
not decrease, and the output is unchanged or extended by one non-EOF token
whose recorded line is the post-step counter and whose lexeme starts at the
pre-step cursor. -/
abbrev ContOK (st st2 : St) : Prop :=
  st.line ≤ st2.line ∧
  (st2.out = st.out ∨
    ∃ tk, st2.out = st.out ++ [tk] ∧ tk.line = st2.line ∧
      tk.kind ≠ .TK_EOF ∧ tk.pos = st.pos)

/-- The buffer contains only plain characters besides the sentinel. -/
abbrev PlainPre (full : List Char) : Prop :=
  ∀ x ∈ full, plainChar x = true ∨ x = sentinel

/-- Exact line accounting for one continuing iteration over a plain buffer:
the quantity `line + newlines-still-ahead` is preserved, and an iteration
that pushes a token does not move the line counter. -/
abbrev PlainOK (full : List Char) (st st2 : St) : Prop :=
  (st2.line + countNl (full.drop st2.pos) =
    st.line + countNl (full.drop st.pos)) ∧
  (st2.out ≠ st.out → st2.line = st.line)

/-! ## Basic lemmas about the loop and the scans -/

theorem runCont {file full st st2 f} (h : step file full st = .cont st2) :
    run file full (f + 1) st = run file full f st2 := by
  simp [run, h]

theorem runDone {file full st ts f} (h : step file full st = .done ts) :
    run file full (f + 1) st = .ok ts := by
  simp [run, h]

theorem runFail {file full st e ts f} (h : step file full st = .fail e ts) :
    run file full (f + 1) st = .err e ts := by
  simp [run, h]

theorem dropAdd {α : Type} (l : List α) (a b : Nat) :
    l.drop (a + b) = (l.drop a).drop b := by
  rw [List.drop_drop, Nat.add_comm]

theorem countNl_append (a b : List Char) :
    countNl (a ++ b) = countNl a + countNl b := by
  induction a with
  | nil => simp [countNl]
  | cons x xs ih => simp [countNl, ih, Nat.add_assoc]

theorem countNl_take_drop (l : List Char) (n : Nat) :
    countNl (l.take n) + countNl (l.drop n) = countNl l := by
  rw [← countNl_append, List.take_append_drop]

theorem commentScan_spec (l : List Char) :
    ∀ n d, commentScan l = some (n, d) → d = countNl (l.take n) := by
  induction l with
  | nil => intro n d h; simp [commentScan] at h
  | cons c rest ih =>
    intro n d h
    simp only [commentScan] at h
    split at h
    · next h1 =>
      subst h1
      rw [Option.map_eq_some'] at h
      obtain ⟨⟨m, e⟩, hm, he⟩ := h
      simp only [Prod.mk.injEq] at he
      obtain ⟨hn, hd⟩ := he
      subst hn; subst hd
      have := ih m e hm
      simp [List.take_succ_cons, countNl, this]
      omega
    · split at h
      · split at h
        · next h1 h2 h3 =>
          simp only [Option.some.injEq, Prod.mk.injEq] at h
          obtain ⟨hn, hd⟩ := h
          subst hn; subst hd
          cases rest with
          | nil => exact absurd h3 (by decide)
          | cons d2 r2 =>
            simp only [List.headD_cons] at h3
            subst h3; subst h2
            simp [List.take_succ_cons, countNl]
        · next h1 h2 h3 =>
          rw [Option.map_eq_some'] at h
          obtain ⟨⟨m, e⟩, hm, he⟩ := h
          simp only [Prod.mk.injEq] at he
          obtain ⟨hn, hd⟩ := he
          subst hn; subst hd
          have := ih m e hm
          subst h2
          simp [List.take_succ_cons, countNl, this]
      · split at h
        · simp at h
        · next h1 h2 h3 =>
          rw [Option.map_eq_some'] at h
          obtain ⟨⟨m, e⟩, hm, he⟩ := h
          simp only [Prod.mk.injEq] at he
          obtain ⟨hn, hd⟩ := he
          subst hn; subst hd
          have := ih m e hm
          simp [List.take_succ_cons, countNl, this, h1]

theorem slcScan_spec (l : List Char) :
    ∀ prev, (slcScan l prev).2 = countNl (l.take (slcScan l prev).1) := by
  induction l with
  | nil => intro prev; simp [slcScan, countNl]
  | cons c rest ih =>
    intro prev
    simp only [slcScan]
    split
    · next h1 =>
      subst h1
      split
      · simp [List.take_succ_cons, countNl, ih]
        omega
      · simp [List.take_succ_cons, countNl]
    · next h1 =>
      split
      · simp [countNl]
      · simp [List.take_succ_cons, countNl, ih, h1]

theorem numScan_spec (c0 : Char) (l : List Char) :
    ∀ (prev : Char) (a b x s : Bool) (i n : Nat),
      numScan c0 l prev a b x s i = some n →
      i ≤ n ∧ countNl (l.take (n - i)) = 0 := by
  induction l with
  | nil =>
    intro prev a b x s i n h
    simp only [numScan] at h
    split at h
    · simp only [Option.some.injEq] at h
      subst h
      simp [countNl]
    · simp at h
  | cons c rest ih =>
    intro prev a b x s i n h
    have next : ∀ (p : Char) (a2 b2 x2 s2 : Bool),
        numScan c0 rest p a2 b2 x2 s2 (i + 1) = some n → c ≠ '\n' →
        i ≤ n ∧ countNl ((c :: rest).take (n - i)) = 0 := by
      intro p a2 b2 x2 s2 hr hc
      obtain ⟨h1, h2⟩ := ih p a2 b2 x2 s2 (i + 1) n hr
      refine ⟨by omega, ?_⟩
      have he : n - i = (n - (i + 1)) + 1 := by omega
      rw [he, List.take_succ_cons]
      simp [countNl, h2, hc]
    simp only [numScan] at h
    split at h
    · next h1 =>
      refine next _ _ _ _ _ h ?_
      intro he; subst he; simp [cIsDigit] at h1
    · split at h
      · next h1 h2 =>
        refine next _ _ _ _ _ h ?_
        intro he; subst he; simp [cIsDigit] at h2
      · split at h
        · next h1 h2 h3 =>
          refine next _ _ _ _ _ h ?_
          intro he; subst he; simp [cIsHexLetter] at h3
        · split at h
          · split at h
            · simp only [Option.some.injEq] at h
              subst h
              simp [countNl]
            · next h1 h2 h3 h4 h5 =>
              refine next _ _ _ _ _ h ?_
              intro he; subst he; simp at h4
          · split at h
            · next h1 h2 h3 h4 h5 =>
              refine next _ _ _ _ _ h ?_
              intro he; subst he; simp at h5
            · split at h
              · next h1 h2 h3 h4 h5 h6 =>
                refine next _ _ _ _ _ h ?_
                intro he; subst he; simp at h6
              · split at h
                · next h1 h2 h3 h4 h5 h6 h7 =>
                  refine next _ _ _ _ _ h ?_
                  intro he; subst he; simp at h7
                · split at h
                  · next h1 h2 h3 h4 h5 h6 h7 h8 =>
                    refine next _ _ _ _ _ h ?_
                    intro he; subst he; simp [cIsSuffixChar] at h8
                  · split at h
                    · simp only [Option.some.injEq] at h
                      subst h
                      simp [countNl]
                    · simp at h

theorem spacesLen_no_nl (l : List Char) : countNl (l.take (spacesLen l)) = 0 := by
  induction l with
  | nil => simp [spacesLen, countNl]
  | cons c rest ih =>
    simp only [spacesLen]
    split
    · next hc =>
      rw [List.take_succ_cons]
      have : c ≠ '\n' := by
        rcases (by simpa using hc : c = ' ' ∨ c = '\t') with h | h <;>
          (subst h; decide)
      simp [countNl, ih, this]
    · simp [countNl]

theorem identLen_no_nl (l : List Char) : countNl (l.take (identLen l)) = 0 := by
  induction l with
  | nil => simp [identLen, countNl]
  | cons c rest ih =>
    simp only [identLen]
    split
    · next hc =>
      rw [List.take_succ_cons]
      have : c ≠ '\n' := by
        intro he; subst he
        simp [cIsIdentChar, cIsAlnum, cIsAlpha, cIsDigit] at hc
      simp [countNl, ih, this]
    · simp [countNl]

theorem countNl_take2 {c d : Char} {rest : List Char} (hc : c ≠ '\n')
    (hd : rest.headD sentinel = d) (hdn : d ≠ '\n') :
    countNl ((c :: rest).take 2) = 0 := by
  cases rest with
  | nil => simp [countNl, hc]
  | cons e r => simp_all [countNl, hc]

theorem countNl_take3 {c d e : Char} {rest : List Char} (hc : c ≠ '\n')
    (hd : rest.headD sentinel = d) (hdn : d ≠ '\n')
    (he : (rest.drop 1).headD sentinel = e) (hen : e ≠ '\n') :
    countNl ((c :: rest).take 3) = 0 := by
  cases rest with
  | nil => simp [countNl, hc]
  | cons f r =>
    cases r with
    | nil => simp_all [countNl]
    | cons g r2 => simp_all [countNl]

/-! ## Inversion lemmas for the dispatch tables -/

theorem oneCharTok_inv {c : Char} {t : TokenType} (h : oneCharTok c = some t) :
    t ≠ .TK_EOF ∧ c ≠ '\n' := by
  unfold oneCharTok at h
  split_ifs at h <;>
    first
      | exact Option.noConfusion h
      | (cases Option.some.inj h; subst_vars; exact ⟨by decide, by decide⟩)

theorem twoCharTok_inv {c : Char} {t1 t2 : TokenType} {c2 : Char}
    (h : twoCharTok c = some (t1, c2, t2)) :
    t1 ≠ .TK_EOF ∧ t2 ≠ .TK_EOF ∧ c ≠ '\n' ∧ c2 ≠ '\n' := by
  unfold twoCharTok at h
  split_ifs at h <;>
    first
      | exact Option.noConfusion h
      | (simp only [Option.some.injEq, Prod.mk.injEq] at h
         obtain ⟨h1, h2, h3⟩ := h
         subst_vars; exact ⟨by decide, by decide, by decide, by decide⟩)

theorem twoChar2Tok_inv {c : Char} {t1 t2 t3 : TokenType} {c2 c3 : Char}
    (h : twoChar2Tok c = some (t1, c2, t2, c3, t3)) :
    t1 ≠ .TK_EOF ∧ t2 ≠ .TK_EOF ∧ t3 ≠ .TK_EOF ∧
    c ≠ '\n' ∧ c2 ≠ '\n' ∧ c3 ≠ '\n' := by
  unfold twoChar2Tok at h
  split_ifs at h <;>
    first
      | exact Option.noConfusion h
      | (simp only [Option.some.injEq, Prod.mk.injEq] at h
         obtain ⟨h1, h2, h3, h4, h5⟩ := h
         subst_vars
         exact ⟨by decide, by decide, by decide, by decide, by decide, by decide⟩)

theorem threeCharTok_inv {c : Char} {t1 t2 t3 t4 : TokenType} {c2 c3 c4 : Char}
    (h : threeCharTok c = some (t1, c2, t2, c3, t3, c4, t4)) :
    t1 ≠ .TK_EOF ∧ t2 ≠ .TK_EOF ∧ t3 ≠ .TK_EOF ∧ t4 ≠ .TK_EOF ∧
    c ≠ '\n' ∧ c2 ≠ '\n' ∧ c3 ≠ '\n' ∧ c4 ≠ '\n' := by
  unfold threeCharTok at h
  split_ifs at h <;>
    first
      | exact Option.noConfusion h
      | (simp only [Option.some.injEq, Prod.mk.injEq] at h
         obtain ⟨h1, h2, h3, h4, h5, h6, h7⟩ := h
         subst_vars
         exact ⟨by decide, by decide, by decide, by decide, by decide, by decide,
           by decide, by decide⟩)

set_option maxHeartbeats 1000000 in
theorem kwLookup_inv {s : List Char} {k : TokenType} (h : kwLookup s = some k) :
    k ≠ .TK_EOF := by
  unfold kwLookup at h
  split_ifs at h <;>
    first
      | exact Option.noConfusion h
      | (cases Option.some.inj h; subst_vars; decide)

/-! ## Per-transformer lemmas and the master step lemmas -/

theorem contOK_skip {st : St} {k nl : Nat} : ContOK st (skipTrivia st k nl) :=
  ⟨Nat.le_add_right _ _, Or.inl rfl⟩

theorem contOK_emit {file : String} {full : List Char} {st : St}
    {t : TokenType} {len : Nat} (hk : t ≠ .TK_EOF) :
    ContOK st (emitTok file full st t len) :=
  ⟨Nat.le_refl _, Or.inr ⟨_, rfl, rfl, hk, rfl⟩⟩

theorem contOK_push {file : String} {full : List Char} {st : St}
    {t : TokenType} {len nl : Nat} (hk : t ≠ .TK_EOF) :
    ContOK st (pushTok file full st t len nl) :=
  ⟨Nat.le_add_right _ _, Or.inr ⟨_, rfl, rfl, hk, rfl⟩⟩

theorem plainOK_emit {file : String} {full : List Char} {st : St}
    {t : TokenType} {len : Nat}
    (h0 : countNl ((full.drop st.pos).take len) = 0) :
    PlainOK full st (emitTok file full st t len) := by
  constructor
  · show st.line + countNl (full.drop (st.pos + len)) =
      st.line + countNl (full.drop st.pos)
    rw [dropAdd]
    have := countNl_take_drop (full.drop st.pos) len
    omega
  · intro _; rfl

theorem plainOK_push0 {file : String} {full : List Char} {st : St}
    {t : TokenType} {len : Nat}
    (h0 : countNl ((full.drop st.pos).take len) = 0) :
    PlainOK full st (pushTok file full st t len 0) := by
  constructor
  · show st.line + 0 + countNl (full.drop (st.pos + len)) =
      st.line + countNl (full.drop st.pos)
    rw [dropAdd]
    have := countNl_take_drop (full.drop st.pos) len
    omega
  · intro _; rfl

theorem plainOK_skip {full : List Char} {st : St} {k nl : Nat}
    (h0 : countNl ((full.drop st.pos).take k) = nl) :
    PlainOK full st (skipTrivia st k nl) := by
  constructor
  · show st.line + nl + countNl (full.drop (st.pos + k)) =
      st.line + countNl (full.drop st.pos)
    rw [dropAdd]
    have := countNl_take_drop (full.drop st.pos) k
    omega
  · intro hne; exact absurd rfl hne

set_option maxHeartbeats 1600000 in
/-- Master lemma for continuing iterations: every `cont` step satisfies
`ContOK`, and over a plain buffer also `PlainOK`. -/
theorem step_cont_master {file : String} {full : List Char} {st st2 : St}
    (h : step file full st = .cont st2) :
    ContOK st st2 ∧ (PlainPre full → PlainOK full st st2) := by
  unfold step at h
  split at h
  · exact StepRes.noConfusion h
  next c rest heqfull =>
    have hcmem : c ∈ full :=
      List.mem_of_mem_drop (n := st.pos)
        (by rw [heqfull]; exact List.mem_cons_self c rest)
    unfold stepChar at h
    by_cases hcs : c = sentinel
    · rw [if_pos hcs] at h
      exact StepRes.noConfusion h
    rw [if_neg hcs] at h
    split at h
    next t h1 =>
      injection h with h2; subst h2
      exact ⟨contOK_emit (oneCharTok_inv h1).1,
        fun hp => plainOK_emit
          (by rw [heqfull]; simp [countNl, (oneCharTok_inv h1).2])⟩
    next h1 =>
      split at h
      next t1 c2 t2 h2 =>
        have hinv := twoCharTok_inv h2
        unfold tier2Step at h
        split at h
        next hif =>
          injection h with h3; subst h3
          exact ⟨contOK_emit hinv.2.1, fun hp => plainOK_emit
            (by rw [heqfull]; exact countNl_take2 hinv.2.2.1 hif hinv.2.2.2)⟩
        next hif =>
          injection h with h3; subst h3
          exact ⟨contOK_emit hinv.1, fun hp => plainOK_emit
            (by rw [heqfull]; simp [countNl, hinv.2.2.1])⟩
      next h2 =>
        split at h
        next t1 c2 t2 c3 t3 h3 =>
          have hinv := twoChar2Tok_inv h3
          unfold tier2bStep at h
          split at h
          next hif =>
            injection h with h4; subst h4
            exact ⟨contOK_emit hinv.2.1, fun hp => plainOK_emit
              (by rw [heqfull]
                  exact countNl_take2 hinv.2.2.2.1 hif hinv.2.2.2.2.1)⟩
          next hif =>
            split at h
            next hif2 =>
              injection h with h4; subst h4
              exact ⟨contOK_emit hinv.2.2.1, fun hp => plainOK_emit
                (by rw [heqfull]
                    exact countNl_take2 hinv.2.2.2.1 hif2 hinv.2.2.2.2.2)⟩
            next hif2 =>
              injection h with h4; subst h4
              exact ⟨contOK_emit hinv.1, fun hp => plainOK_emit
                (by rw [heqfull]; simp [countNl, hinv.2.2.2.1])⟩
        next h3 =>
          split at h
          next t1 c2 t2 c3 t3 c4 t4 h4 =>
            have hinv := threeCharTok_inv h4
            unfold tier3Step at h
            split at h
            next hif =>
              injection h with h5; subst h5
              exact ⟨contOK_emit hinv.2.1, fun hp => plainOK_emit
                (by rw [heqfull]
                    exact countNl_take2 hinv.2.2.2.2.1 hif
                      hinv.2.2.2.2.2.1)⟩
            next hif =>
              split at h
              next hif2 =>
                split at h
                next hif3 =>
                  injection h with h5; subst h5
                  exact ⟨contOK_emit hinv.2.2.2.1, fun hp => plainOK_emit
                    (by rw [heqfull]
                        exact countNl_take3 hinv.2.2.2.2.1 hif2
                          hinv.2.2.2.2.2.2.1 hif3 hinv.2.2.2.2.2.2.2)⟩
                next hif3 =>
                  injection h with h5; subst h5
                  exact ⟨contOK_emit hinv.2.2.1, fun hp => plainOK_emit
                    (by rw [heqfull]
                        exact countNl_take2 hinv.2.2.2.2.1 hif2
                          hinv.2.2.2.2.2.2.1)⟩
              next hif2 =>
                injection h with h5; subst h5
                exact ⟨contOK_emit hinv.1, fun hp => plainOK_emit
                  (by rw [heqfull]; simp [countNl, hinv.2.2.2.2.1])⟩
          next h4 =>
            by_cases hslash : c = '/'
            · rw [if_pos hslash] at h
              subst hslash
              unfold slashStep at h
              split at h
              next hstar =>
                split at h
                next n d hsc =>
                  injection h with h5; subst h5
                  refine ⟨contOK_skip, fun hp => plainOK_skip ?_⟩
                  rw [heqfull]
                  cases rest with
                  | nil => exact absurd hstar (by decide)
                  | cons d2 r2 =>
                    have hd2 : d2 = '*' := by simpa using hstar
                    subst hd2
                    have hspec := commentScan_spec r2 n d (by simpa using hsc)
                    have h2n : 2 + n = (n + 1) + 1 := by omega
                    rw [h2n]
                    simp [countNl, List.take_succ_cons, hspec]
                next hsc => exact StepRes.noConfusion h
              next hstar =>
                split at h
                next hslash2 =>
                  injection h with h5; subst h5
                  refine ⟨contOK_skip, fun hp => plainOK_skip ?_⟩
                  rw [heqfull]
                  cases rest with
                  | nil => exact absurd hslash2 (by decide)
                  | cons d2 r2 =>
                    have hd2 : d2 = '/' := by simpa using hslash2
                    subst hd2
                    have hspec := slcScan_spec r2 '/'
                    simp only [List.drop_succ_cons, List.drop_zero]
                    have h2n : 2 + (slcScan r2 '/').1 =
                        ((slcScan r2 '/').1 + 1) + 1 := by omega
                    rw [h2n]
                    simp [countNl, List.take_succ_cons, hspec]
                next hslash2 =>
                  split at h
                  next hif =>
                    injection h with h5; subst h5
                    exact ⟨contOK_emit (by decide), fun hp => plainOK_emit
                      (by rw [heqfull]
                          exact countNl_take2 (by decide) hif (by decide))⟩
                  next hif =>
                    injection h with h5; subst h5
                    exact ⟨contOK_emit (by decide), fun hp => plainOK_emit
                      (by rw [heqfull]; simp [countNl])⟩
            · rw [if_neg hslash] at h
              by_cases hbs : c = '\\'
              · rw [if_pos hbs] at h
                subst hbs
                split at h
                next hnl =>
                  injection h with h5; subst h5
                  refine ⟨contOK_skip, fun hp => plainOK_skip ?_⟩
                  rw [heqfull]
                  cases rest with
                  | nil =>
                    rcases hnl with h6 | h6 <;> exact absurd h6 (by decide)
                  | cons d2 r2 =>
                    simp only [List.headD_cons] at hnl
                    rcases hnl with h6 | h6
                    · subst h6; simp [countNl]
                    · subst h6
                      have hm : ('\r' : Char) ∈ full :=
                        List.mem_of_mem_drop (n := st.pos)
                          (by rw [heqfull]; simp)
                      rcases hp _ hm with hpc | hpc <;>
                        exact absurd hpc (by decide)
                next hnl => exact StepRes.noConfusion h
              · rw [if_neg hbs] at h
                by_cases hnlc : c = '\n'
                · rw [if_pos hnlc] at h
                  subst hnlc
                  injection h with h5; subst h5
                  exact ⟨contOK_skip, fun hp => plainOK_skip
                    (by rw [heqfull]; simp [countNl])⟩
                · rw [if_neg hnlc] at h
                  by_cases hcr : c = '\r'
                  · rw [if_pos hcr] at h
                    subst hcr
                    injection h with h5; subst h5
                    refine ⟨contOK_skip, fun hp => ?_⟩
                    rcases hp _ hcmem with hpc | hpc <;>
                      exact absurd hpc (by decide)
                  · rw [if_neg hcr] at h
                    by_cases hminus : c = '-'
                    · rw [if_pos hminus] at h
                      subst hminus
                      unfold minusStep at h
                      split at h
                      next hm1 =>
                        injection h with h5; subst h5
                        exact ⟨contOK_emit (by decide), fun hp => plainOK_emit
                          (by rw [heqfull]
                              exact countNl_take2 (by decide) hm1 (by decide))⟩
                      next hm1 =>
                        split at h
                        next hm2 =>
                          injection h with h5; subst h5
                          exact ⟨contOK_emit (by decide), fun hp => plainOK_emit
                            (by rw [heqfull]
                                exact countNl_take2 (by decide) hm2 (by decide))⟩
                        next hm2 =>
                          split at h
                          next hm3 =>
                            split at h
                            next hm4 =>
                              injection h with h5; subst h5
                              exact ⟨contOK_emit (by decide),
                                fun hp => plainOK_emit
                                  (by rw [heqfull]
                                      exact countNl_take3 (by decide) hm3
                                        (by decide) hm4 (by decide))⟩
                            next hm4 =>
                              injection h with h5; subst h5
                              exact ⟨contOK_emit (by decide),
                                fun hp => plainOK_emit
                                  (by rw [heqfull]
                                      exact countNl_take2 (by decide) hm3
                                        (by decide))⟩
                          next hm3 =>
                            injection h with h5; subst h5
                            exact ⟨contOK_emit (by decide),
                              fun hp => plainOK_emit
                                (by rw [heqfull]; simp [countNl])⟩
                    · rw [if_neg hminus] at h
                      by_cases hws : c = ' ' ∨ c = '\t'
                      · rw [if_pos hws] at h
                        injection h with h5; subst h5
                        refine ⟨contOK_skip, fun hp => plainOK_skip ?_⟩
                        rw [heqfull]
                        exact spacesLen_no_nl (c :: rest)
                      · rw [if_neg hws] at h
                        by_cases hbq : c = '`'
                        · rw [if_pos hbq] at h
                          exact StepRes.noConfusion h
                        · rw [if_neg hbq] at h
                          by_cases hdig : cIsDigit c = true
                          · rw [if_pos hdig] at h
                            unfold numberStep at h
                            split at h
                            next n h6 =>
                              injection h with h5; subst h5
                              refine ⟨contOK_push (by decide),
                                fun hp => plainOK_push0 ?_⟩
                              have := (numScan_spec _ _ _ _ _ _ _ 0 n h6).2
                              simpa using this
                            next h6 => exact StepRes.noConfusion h
                          · rw [if_neg hdig] at h
                            by_cases hdot : c = '.'
                            · rw [if_pos hdot] at h
                              subst hdot
                              unfold dotStep numberStep at h
                              split at h
                              next hd1 =>
                                split at h
                                next n h6 =>
                                  injection h with h5; subst h5
                                  refine ⟨contOK_push (by decide),
                                    fun hp => plainOK_push0 ?_⟩
                                  have := (numScan_spec _ _ _ _ _ _ _ 0 n h6).2
                                  simpa using this
                                next h6 => exact StepRes.noConfusion h
                              next hd1 =>
                                split at h
                                next hd2 =>
                                  injection h with h5; subst h5
                                  exact ⟨contOK_emit (by decide),
                                    fun hp => plainOK_emit
                                      (by rw [heqfull]
                                          exact countNl_take2 (by decide) hd2
                                            (by decide))⟩
                                next hd2 =>
                                  split at h
                                  next hd3 =>
                                    injection h with h5; subst h5
                                    exact ⟨contOK_emit (by decide),
                                      fun hp => plainOK_emit
                                        (by rw [heqfull]
                                            exact countNl_take3 (by decide)
                                              hd3.1 (by decide) hd3.2
                                              (by decide))⟩
                                  next hd3 =>
                                    injection h with h5; subst h5
                                    exact ⟨contOK_emit (by decide),
                                      fun hp => plainOK_emit
                                        (by rw [heqfull]; simp [countNl])⟩
                            · rw [if_neg hdot] at h
                              by_cases hq : c = '\''
                              · rw [if_pos hq] at h
                                subst hq
                                unfold charLitStep at h
                                split at h
                                next n d h6 =>
                                  injection h with h5; subst h5
                                  refine ⟨contOK_push (by decide), fun hp => ?_⟩
                                  rcases hp _ hcmem with hpc | hpc <;>
                                    exact absurd hpc (by decide)
                                next h6 => exact StepRes.noConfusion h
                              · rw [if_neg hq] at h
                                by_cases hq2 : c = '"'
                                · rw [if_pos hq2] at h
                                  subst hq2
                                  unfold stringLitStep at h
                                  split at h
                                  next n d h6 =>
                                    injection h with h5; subst h5
                                    refine ⟨contOK_push (by decide),
                                      fun hp => ?_⟩
                                    rcases hp _ hcmem with hpc | hpc <;>
                                      exact absurd hpc (by decide)
                                  next h6 => exact StepRes.noConfusion h
                                · rw [if_neg hq2] at h
                                  by_cases hpound : c = '#'
                                  · rw [if_pos hpound] at h
                                    subst hpound
                                    unfold directiveStep at h
                                    have hplainF : PlainPre full → False := fun hp => by
                                      rcases hp _ hcmem with hpc | hpc <;> exact absurd hpc (by decide)
                                    by_cases p1 : startsWithKw ("line".toList) (rest.drop (spacesLen rest)) = true
                                    · rw [if_pos p1] at h
                                      injection h with h5; subst h5
                                      exact ⟨contOK_emit (by decide), fun hp => (hplainF hp).elim⟩
                                    · rw [if_neg p1] at h
                                      by_cases p2 : startsWithKw ("warning".toList) (rest.drop (spacesLen rest)) = true ∨ startsWithKw ("error".toList) (rest.drop (spacesLen rest)) = true
                                      · rw [if_pos p2] at h
                                        by_cases p2b : hashQfLen rest = 0
                                        · rw [if_pos p2b] at h
                                          exact StepRes.noConfusion h
                                        · rw [if_neg p2b] at h
                                          injection h with h5; subst h5
                                          exact ⟨contOK_emit (by decide), fun hp => (hplainF hp).elim⟩
                                      · rw [if_neg p2] at h
                                        by_cases p3 : startsWithKw ("include".toList) (rest.drop (spacesLen rest)) = true
                                        · rw [if_pos p3] at h
                                          injection h with h5; subst h5
                                          exact ⟨contOK_emit (by decide), fun hp => (hplainF hp).elim⟩
                                        · rw [if_neg p3] at h
                                          by_cases p4 : startsWithKw ("ifdef".toList) (rest.drop (spacesLen rest)) = true
                                          · rw [if_pos p4] at h
                                            injection h with h5; subst h5
                                            exact ⟨contOK_emit (by decide), fun hp => (hplainF hp).elim⟩
                                          · rw [if_neg p4] at h
                                            by_cases p5 : startsWithKw ("ifndef".toList) (rest.drop (spacesLen rest)) = true
                                            · rw [if_pos p5] at h
                                              injection h with h5; subst h5
                                              exact ⟨contOK_emit (by decide), fun hp => (hplainF hp).elim⟩
                                            · rw [if_neg p5] at h
                                              by_cases p6 : startsWithKw ("if".toList) (rest.drop (spacesLen rest)) = true
                                              · rw [if_pos p6] at h
                                                injection h with h5; subst h5
                                                exact ⟨contOK_emit (by decide), fun hp => (hplainF hp).elim⟩
                                              · rw [if_neg p6] at h
                                                by_cases p7 : startsWithKw ("undef".toList) (rest.drop (spacesLen rest)) = true
                                                · rw [if_pos p7] at h
                                                  injection h with h5; subst h5
                                                  exact ⟨contOK_emit (by decide), fun hp => (hplainF hp).elim⟩
                                                · rw [if_neg p7] at h
                                                  by_cases p8 : startsWithKw ("else".toList) (rest.drop (spacesLen rest)) = true
                                                  · rw [if_pos p8] at h
                                                    injection h with h5; subst h5
                                                    exact ⟨contOK_emit (by decide), fun hp => (hplainF hp).elim⟩
                                                  · rw [if_neg p8] at h
                                                    by_cases p9 : startsWithKw ("endif".toList) (rest.drop (spacesLen rest)) = true
                                                    · rw [if_pos p9] at h
                                                      injection h with h5; subst h5
                                                      exact ⟨contOK_emit (by decide), fun hp => (hplainF hp).elim⟩
                                                    · rw [if_neg p9] at h
                                                      by_cases p10 : startsWithKw ("define".toList) (rest.drop (spacesLen rest)) = true
                                                      · rw [if_pos p10] at h
                                                        injection h with h5; subst h5
                                                        exact ⟨contOK_emit (by decide), fun hp => (hplainF hp).elim⟩
                                                      · rw [if_neg p10] at h
                                                        by_cases p11 : startsWithKw ("pragma".toList) (rest.drop (spacesLen rest)) = true
                                                        · rw [if_pos p11] at h
                                                          injection h with h5; subst h5
                                                          exact ⟨contOK_emit (by decide), fun hp => (hplainF hp).elim⟩
                                                        · rw [if_neg p11] at h
                                                          by_cases p12 : startsWithKw ("#".toList) (rest.drop (spacesLen rest)) = true
                                                          · rw [if_pos p12] at h
                                                            injection h with h5; subst h5
                                                            exact ⟨contOK_emit (by decide), fun hp => (hplainF hp).elim⟩
                                                          · rw [if_neg p12] at h
                                                            injection h with h5; subst h5
                                                            exact ⟨contOK_emit (by decide), fun hp => (hplainF hp).elim⟩
                                  · rw [if_neg hpound] at h
                                    by_cases hctl : cIsCntrl c = true
                                    · rw [if_pos hctl] at h
                                      injection h with h5; subst h5
                                      refine ⟨contOK_skip,
                                        fun hp => plainOK_skip ?_⟩
                                      rw [heqfull]
                                      simp [countNl, hnlc]
                                    · rw [if_neg hctl] at h
                                      by_cases halpha :
                                          cIsAlpha c = true ∨ c = '_' ∨
                                            c = '$' ∨ c = '@'
                                      · rw [if_pos halpha] at h
                                        unfold identStep at h
                                        split at h
                                        next hz => exact StepRes.noConfusion h
                                        next hz =>
                                          split at h
                                          next k h7 =>
                                            injection h with h5; subst h5
                                            exact
                                              ⟨contOK_push (kwLookup_inv h7),
                                               fun hp => plainOK_push0
                                                 (by rw [heqfull]
                                                     exact identLen_no_nl
                                                       (c :: rest))⟩
                                          next h7 =>
                                            injection h with h5; subst h5
                                            exact ⟨contOK_push (by decide),
                                              fun hp => plainOK_push0
                                                (by rw [heqfull]
                                                    exact identLen_no_nl
                                                      (c :: rest))⟩
                                      · rw [if_neg halpha] at h
                                        exact StepRes.noConfusion h

set_option maxHeartbeats 1600000 in
/-- Every failing iteration leaves the output vector exactly as it was:
the thrown error carries the tokens pushed so far, nothing more. -/
theorem step_fail_inv {file : String} {full : List Char} {st : St}
    {e : Err} {ts : List Token} (h : step file full st = .fail e ts) :
    ts = st.out := by
  unfold step at h
  split at h
  · injection h with h8 h9; exact h9.symm
  next c rest heqfull =>
    unfold stepChar at h
    by_cases hcs : c = sentinel
    · rw [if_pos hcs] at h
      first | exact StepRes.noConfusion h | (injection h with h8 h9; exact h9.symm)
    rw [if_neg hcs] at h
    split at h
    · first | exact StepRes.noConfusion h | (injection h with h8 h9; exact h9.symm)
    · split at h
      · unfold tier2Step at h
        split at h
        · first | exact StepRes.noConfusion h | (injection h with h8 h9; exact h9.symm)
        · first | exact StepRes.noConfusion h | (injection h with h8 h9; exact h9.symm)
      · split at h
        · unfold tier2bStep at h
          split at h
          · first | exact StepRes.noConfusion h | (injection h with h8 h9; exact h9.symm)
          · split at h
            · first | exact StepRes.noConfusion h | (injection h with h8 h9; exact h9.symm)
            · first | exact StepRes.noConfusion h | (injection h with h8 h9; exact h9.symm)
        · split at h
          · unfold tier3Step at h
            split at h
            · first | exact StepRes.noConfusion h | (injection h with h8 h9; exact h9.symm)
            · split at h
              · split at h
                · first | exact StepRes.noConfusion h | (injection h with h8 h9; exact h9.symm)
                · first | exact StepRes.noConfusion h | (injection h with h8 h9; exact h9.symm)
              · first | exact StepRes.noConfusion h | (injection h with h8 h9; exact h9.symm)
          · -- big dispatch chain
            by_cases hslash : c = '/'
            · rw [if_pos hslash] at h
              unfold slashStep at h
              split at h
              · split at h
                · first | exact StepRes.noConfusion h | (injection h with h8 h9; exact h9.symm)
                · first | exact StepRes.noConfusion h | (injection h with h8 h9; exact h9.symm)
              · split at h
                · first | exact StepRes.noConfusion h | (injection h with h8 h9; exact h9.symm)
                · split at h
                  · first | exact StepRes.noConfusion h | (injection h with h8 h9; exact h9.symm)
                  · first | exact StepRes.noConfusion h | (injection h with h8 h9; exact h9.symm)
            · rw [if_neg hslash] at h
              by_cases hbs : c = '\\'
              · rw [if_pos hbs] at h
                split at h
                · first | exact StepRes.noConfusion h | (injection h with h8 h9; exact h9.symm)
                · first | exact StepRes.noConfusion h | (injection h with h8 h9; exact h9.symm)
              · rw [if_neg hbs] at h
                by_cases hnlc : c = '\n'
                · rw [if_pos hnlc] at h
                  first | exact StepRes.noConfusion h | (injection h with h8 h9; exact h9.symm)
                · rw [if_neg hnlc] at h
                  by_cases hcr : c = '\r'
                  · rw [if_pos hcr] at h
                    first | exact StepRes.noConfusion h | (injection h with h8 h9; exact h9.symm)
                  · rw [if_neg hcr] at h
                    by_cases hminus : c = '-'
                    · rw [if_pos hminus] at h
                      unfold minusStep at h
                      split at h
                      · first | exact StepRes.noConfusion h | (injection h with h8 h9; exact h9.symm)
                      · split at h
                        · first | exact StepRes.noConfusion h | (injection h with h8 h9; exact h9.symm)
                        · split at h
                          · split at h
                            · first | exact StepRes.noConfusion h | (injection h with h8 h9; exact h9.symm)
                            · first | exact StepRes.noConfusion h | (injection h with h8 h9; exact h9.symm)
                          · first | exact StepRes.noConfusion h | (injection h with h8 h9; exact h9.symm)
                    · rw [if_neg hminus] at h
                      by_cases hws : c = ' ' ∨ c = '\t'
                      · rw [if_pos hws] at h
                        first | exact StepRes.noConfusion h | (injection h with h8 h9; exact h9.symm)
                      · rw [if_neg hws] at h
                        by_cases hbq : c = '`'
                        · rw [if_pos hbq] at h
                          first | exact StepRes.noConfusion h | (injection h with h8 h9; exact h9.symm)
                        · rw [if_neg hbq] at h
                          by_cases hdig : cIsDigit c = true
                          · rw [if_pos hdig] at h
                            unfold numberStep at h
                            split at h
                            · first | exact StepRes.noConfusion h | (injection h with h8 h9; exact h9.symm)
                            · first | exact StepRes.noConfusion h | (injection h with h8 h9; exact h9.symm)
                          · rw [if_neg hdig] at h
                            by_cases hdot : c = '.'
                            · rw [if_pos hdot] at h
                              unfold dotStep numberStep at h
                              split at h
                              · split at h
                                · first | exact StepRes.noConfusion h | (injection h with h8 h9; exact h9.symm)
                                · first | exact StepRes.noConfusion h | (injection h with h8 h9; exact h9.symm)
                              · split at h
                                · first | exact StepRes.noConfusion h | (injection h with h8 h9; exact h9.symm)
                                · split at h
                                  · first | exact StepRes.noConfusion h | (injection h with h8 h9; exact h9.symm)
                                  · first | exact StepRes.noConfusion h | (injection h with h8 h9; exact h9.symm)
                            · rw [if_neg hdot] at h
                              by_cases hq : c = '\''
                              · rw [if_pos hq] at h
                                unfold charLitStep at h
                                split at h
                                · first | exact StepRes.noConfusion h | (injection h with h8 h9; exact h9.symm)
                                · first | exact StepRes.noConfusion h | (injection h with h8 h9; exact h9.symm)
                              · rw [if_neg hq] at h
                                by_cases hq2 : c = '"'
                                · rw [if_pos hq2] at h
                                  unfold stringLitStep at h
                                  split at h
                                  · first | exact StepRes.noConfusion h | (injection h with h8 h9; exact h9.symm)
                                  · first | exact StepRes.noConfusion h | (injection h with h8 h9; exact h9.symm)
                                · rw [if_neg hq2] at h
                                  by_cases hpound : c = '#'
                                  · rw [if_pos hpound] at h
                                    unfold directiveStep at h
                                    by_cases p1 : startsWithKw ("line".toList) (rest.drop (spacesLen rest)) = true
                                    · rw [if_pos p1] at h
                                      first | exact StepRes.noConfusion h | (injection h with h8 h9; exact h9.symm)
                                    · rw [if_neg p1] at h
                                      by_cases p2 : startsWithKw ("warning".toList) (rest.drop (spacesLen rest)) = true ∨ startsWithKw ("error".toList) (rest.drop (spacesLen rest)) = true
                                      · rw [if_pos p2] at h
                                        by_cases p2b : hashQfLen rest = 0
                                        · rw [if_pos p2b] at h
                                          first | exact StepRes.noConfusion h | (injection h with h8 h9; exact h9.symm)
                                        · rw [if_neg p2b] at h
                                          first | exact StepRes.noConfusion h | (injection h with h8 h9; exact h9.symm)
                                      · rw [if_neg p2] at h
                                        by_cases p3 : startsWithKw ("include".toList) (rest.drop (spacesLen rest)) = true
                                        · rw [if_pos p3] at h
                                          first | exact StepRes.noConfusion h | (injection h with h8 h9; exact h9.symm)
                                        · rw [if_neg p3] at h
                                          by_cases p4 : startsWithKw ("ifdef".toList) (rest.drop (spacesLen rest)) = true
                                          · rw [if_pos p4] at h
                                            first | exact StepRes.noConfusion h | (injection h with h8 h9; exact h9.symm)
                                          · rw [if_neg p4] at h
                                            by_cases p5 : startsWithKw ("ifndef".toList) (rest.drop (spacesLen rest)) = true
                                            · rw [if_pos p5] at h
                                              first | exact StepRes.noConfusion h | (injection h with h8 h9; exact h9.symm)
                                            · rw [if_neg p5] at h
                                              by_cases p6 : startsWithKw ("if".toList) (rest.drop (spacesLen rest)) = true
                                              · rw [if_pos p6] at h
                                                first | exact StepRes.noConfusion h | (injection h with h8 h9; exact h9.symm)
                                              · rw [if_neg p6] at h
                                                by_cases p7 : startsWithKw ("undef".toList) (rest.drop (spacesLen rest)) = true
                                                · rw [if_pos p7] at h
                                                  first | exact StepRes.noConfusion h | (injection h with h8 h9; exact h9.symm)
                                                · rw [if_neg p7] at h
                                                  by_cases p8 : startsWithKw ("else".toList) (rest.drop (spacesLen rest)) = true
                                                  · rw [if_pos p8] at h
                                                    first | exact StepRes.noConfusion h | (injection h with h8 h9; exact h9.symm)
                                                  · rw [if_neg p8] at h
                                                    by_cases p9 : startsWithKw ("endif".toList) (rest.drop (spacesLen rest)) = true
                                                    · rw [if_pos p9] at h
                                                      first | exact StepRes.noConfusion h | (injection h with h8 h9; exact h9.symm)
                                                    · rw [if_neg p9] at h
                                                      by_cases p10 : startsWithKw ("define".toList) (rest.drop (spacesLen rest)) = true
                                                      · rw [if_pos p10] at h
                                                        first | exact StepRes.noConfusion h | (injection h with h8 h9; exact h9.symm)
                                                      · rw [if_neg p10] at h
                                                        by_cases p11 : startsWithKw ("pragma".toList) (rest.drop (spacesLen rest)) = true
                                                        · rw [if_pos p11] at h
                                                          first | exact StepRes.noConfusion h | (injection h with h8 h9; exact h9.symm)
                                                        · rw [if_neg p11] at h
                                                          by_cases p12 : startsWithKw ("#".toList) (rest.drop (spacesLen rest)) = true
                                                          · rw [if_pos p12] at h
                                                            first | exact StepRes.noConfusion h | (injection h with h8 h9; exact h9.symm)
                                                          · rw [if_neg p12] at h
                                                            first | exact StepRes.noConfusion h | (injection h with h8 h9; exact h9.symm)
                                  · rw [if_neg hpound] at h
                                    by_cases hctl : cIsCntrl c = true
                                    · rw [if_pos hctl] at h
                                      first | exact StepRes.noConfusion h | (injection h with h8 h9; exact h9.symm)
                                    · rw [if_neg hctl] at h
                                      by_cases halpha : cIsAlpha c = true ∨ c = '_' ∨ c = '$' ∨ c = '@'
                                      · rw [if_pos halpha] at h
                                        unfold identStep at h
                                        split at h
                                        · first | exact StepRes.noConfusion h | (injection h with h8 h9; exact h9.symm)
                                        · split at h
                                          · first | exact StepRes.noConfusion h | (injection h with h8 h9; exact h9.symm)
                                          · first | exact StepRes.noConfusion h | (injection h with h8 h9; exact h9.symm)
                                      · rw [if_neg halpha] at h
                                        first | exact StepRes.noConfusion h | (injection h with h8 h9; exact h9.symm)

set_option maxHeartbeats 1600000 in
/-- A finishing iteration happens exactly at the sentinel: the result is
the prior output plus one EndOfInput token whose lexeme is the remaining
piece (which starts with the sentinel). -/
theorem step_done_inv {file : String} {full : List Char} {st : St}
    {ts : List Token} (h : step file full st = .done ts) :
    ∃ r, full.drop st.pos = sentinel :: r ∧
      ts = st.out ++
        [⟨.TK_EOF, sentinel :: r, file, st.line, triviaOf full st,
          st.pos⟩] := by
  unfold step at h
  split at h
  · exact StepRes.noConfusion h
  next c rest heqfull =>
    unfold stepChar at h
    by_cases hcs : c = sentinel
    · rw [if_pos hcs] at h
      subst hcs
      injection h with h9
      exact ⟨rest, heqfull, h9.symm⟩
    rw [if_neg hcs] at h
    split at h
    · exact StepRes.noConfusion h
    · split at h
      · unfold tier2Step at h
        split at h
        · exact StepRes.noConfusion h
        · exact StepRes.noConfusion h
      · split at h
        · unfold tier2bStep at h
          split at h
          · exact StepRes.noConfusion h
          · split at h
            · exact StepRes.noConfusion h
            · exact StepRes.noConfusion h
        · split at h
          · unfold tier3Step at h
            split at h
            · exact StepRes.noConfusion h
            · split at h
              · split at h
                · exact StepRes.noConfusion h
                · exact StepRes.noConfusion h
              · exact StepRes.noConfusion h
          · -- big dispatch chain
            by_cases hslash : c = '/'
            · rw [if_pos hslash] at h
              unfold slashStep at h
              split at h
              · split at h
                · exact StepRes.noConfusion h
                · exact StepRes.noConfusion h
              · split at h
                · exact StepRes.noConfusion h
                · split at h
                  · exact StepRes.noConfusion h
                  · exact StepRes.noConfusion h
            · rw [if_neg hslash] at h
              by_cases hbs : c = '\\'
              · rw [if_pos hbs] at h
                split at h
                · exact StepRes.noConfusion h
                · exact StepRes.noConfusion h
              · rw [if_neg hbs] at h
                by_cases hnlc : c = '\n'
                · rw [if_pos hnlc] at h
                  exact StepRes.noConfusion h
                · rw [if_neg hnlc] at h
                  by_cases hcr : c = '\r'
                  · rw [if_pos hcr] at h
                    exact StepRes.noConfusion h
                  · rw [if_neg hcr] at h
                    by_cases hminus : c = '-'
                    · rw [if_pos hminus] at h
                      unfold minusStep at h
                      split at h
                      · exact StepRes.noConfusion h
                      · split at h
                        · exact StepRes.noConfusion h
                        · split at h
                          · split at h
                            · exact StepRes.noConfusion h
                            · exact StepRes.noConfusion h
                          · exact StepRes.noConfusion h
                    · rw [if_neg hminus] at h
                      by_cases hws : c = ' ' ∨ c = '\t'
                      · rw [if_pos hws] at h
                        exact StepRes.noConfusion h
                      · rw [if_neg hws] at h
                        by_cases hbq : c = '`'
                        · rw [if_pos hbq] at h
                          exact StepRes.noConfusion h
                        · rw [if_neg hbq] at h
                          by_cases hdig : cIsDigit c = true
                          · rw [if_pos hdig] at h
                            unfold numberStep at h
                            split at h
                            · exact StepRes.noConfusion h
                            · exact StepRes.noConfusion h
                          · rw [if_neg hdig] at h
                            by_cases hdot : c = '.'
                            · rw [if_pos hdot] at h
                              unfold dotStep numberStep at h
                              split at h
                              · split at h
                                · exact StepRes.noConfusion h
                                · exact StepRes.noConfusion h
                              · split at h
                                · exact StepRes.noConfusion h
                                · split at h
                                  · exact StepRes.noConfusion h
                                  · exact StepRes.noConfusion h
                            · rw [if_neg hdot] at h
                              by_cases hq : c = '\''
                              · rw [if_pos hq] at h
                                unfold charLitStep at h
                                split at h
                                · exact StepRes.noConfusion h
                                · exact StepRes.noConfusion h
                              · rw [if_neg hq] at h
                                by_cases hq2 : c = '"'
                                · rw [if_pos hq2] at h
                                  unfold stringLitStep at h
                                  split at h
                                  · exact StepRes.noConfusion h
                                  · exact StepRes.noConfusion h
                                · rw [if_neg hq2] at h
                                  by_cases hpound : c = '#'
                                  · rw [if_pos hpound] at h
                                    unfold directiveStep at h
                                    by_cases p1 : startsWithKw ("line".toList) (rest.drop (spacesLen rest)) = true
                                    · rw [if_pos p1] at h
                                      exact StepRes.noConfusion h
                                    · rw [if_neg p1] at h
                                      by_cases p2 : startsWithKw ("warning".toList) (rest.drop (spacesLen rest)) = true ∨ startsWithKw ("error".toList) (rest.drop (spacesLen rest)) = true
                                      · rw [if_pos p2] at h
                                        by_cases p2b : hashQfLen rest = 0
                                        · rw [if_pos p2b] at h
                                          exact StepRes.noConfusion h
                                        · rw [if_neg p2b] at h
                                          exact StepRes.noConfusion h
                                      · rw [if_neg p2] at h
                                        by_cases p3 : startsWithKw ("include".toList) (rest.drop (spacesLen rest)) = true
                                        · rw [if_pos p3] at h
                                          exact StepRes.noConfusion h
                                        · rw [if_neg p3] at h
                                          by_cases p4 : startsWithKw ("ifdef".toList) (rest.drop (spacesLen rest)) = true
                                          · rw [if_pos p4] at h
                                            exact StepRes.noConfusion h
                                          · rw [if_neg p4] at h
                                            by_cases p5 : startsWithKw ("ifndef".toList) (rest.drop (spacesLen rest)) = true
                                            · rw [if_pos p5] at h
                                              exact StepRes.noConfusion h
                                            · rw [if_neg p5] at h
                                              by_cases p6 : startsWithKw ("if".toList) (rest.drop (spacesLen rest)) = true
                                              · rw [if_pos p6] at h
                                                exact StepRes.noConfusion h
                                              · rw [if_neg p6] at h
                                                by_cases p7 : startsWithKw ("undef".toList) (rest.drop (spacesLen rest)) = true
                                                · rw [if_pos p7] at h
                                                  exact StepRes.noConfusion h
                                                · rw [if_neg p7] at h
                                                  by_cases p8 : startsWithKw ("else".toList) (rest.drop (spacesLen rest)) = true
                                                  · rw [if_pos p8] at h
                                                    exact StepRes.noConfusion h
                                                  · rw [if_neg p8] at h
                                                    by_cases p9 : startsWithKw ("endif".toList) (rest.drop (spacesLen rest)) = true
                                                    · rw [if_pos p9] at h
                                                      exact StepRes.noConfusion h
                                                    · rw [if_neg p9] at h
                                                      by_cases p10 : startsWithKw ("define".toList) (rest.drop (spacesLen rest)) = true
                                                      · rw [if_pos p10] at h
                                                        exact StepRes.noConfusion h
                                                      · rw [if_neg p10] at h
                                                        by_cases p11 : startsWithKw ("pragma".toList) (rest.drop (spacesLen rest)) = true
                                                        · rw [if_pos p11] at h
                                                          exact StepRes.noConfusion h
                                                        · rw [if_neg p11] at h
                                                          by_cases p12 : startsWithKw ("#".toList) (rest.drop (spacesLen rest)) = true
                                                          · rw [if_pos p12] at h
                                                            exact StepRes.noConfusion h
                                                          · rw [if_neg p12] at h
                                                            exact StepRes.noConfusion h
                                  · rw [if_neg hpound] at h
                                    by_cases hctl : cIsCntrl c = true
                                    · rw [if_pos hctl] at h
                                      exact StepRes.noConfusion h
                                    · rw [if_neg hctl] at h
                                      by_cases halpha : cIsAlpha c = true ∨ c = '_' ∨ c = '$' ∨ c = '@'
                                      · rw [if_pos halpha] at h
                                        unfold identStep at h
                                        split at h
                                        · exact StepRes.noConfusion h
                                        · split at h
                                          · exact StepRes.noConfusion h
                                          · exact StepRes.noConfusion h
                                      · rw [if_neg halpha] at h
                                        exact StepRes.noConfusion h

/-! ## Run-level invariants -/

theorem run_ok_pairwise {file : String} {full : List Char} :
    ∀ {fuel : Nat} {st : St} {ts : List Token},
      (∀ t ∈ st.out, t.line ≤ st.line) →
      List.Pairwise (fun a b => a.line ≤ b.line) st.out →
      run file full fuel st = .ok ts →
      List.Pairwise (fun a b => a.line ≤ b.line) ts := by
  intro fuel
  induction fuel with
  | zero => intro st ts h1 h2 h; simp [run] at h
  | succ f ih =>
    intro st ts h1 h2 h
    simp only [run] at h
    split at h
    next st2 hs =>
      obtain ⟨hline, hout⟩ := (step_cont_master hs).1
      refine ih ?_ ?_ h
      · rcases hout with he | ⟨tk, he, htl, _, _⟩
        · rw [he]; intro t ht; exact le_trans (h1 t ht) hline
        · rw [he]; intro t ht
          rcases List.mem_append.mp ht with h3 | h3
          · exact le_trans (h1 t h3) hline
          · rw [List.mem_singleton.mp h3, htl]
      · rcases hout with he | ⟨tk, he, htl, _, _⟩
        · rw [he]; exact h2
        · rw [he, List.pairwise_append]
          refine ⟨h2, List.pairwise_singleton _ _, ?_⟩
          intro a ha b hb
          rw [List.mem_singleton.mp hb, htl]
          exact le_trans (h1 a ha) hline
    next ts2 hs =>
      injection h with h3
      subst h3
      obtain ⟨r, hdrop, hts⟩ := step_done_inv hs
      subst hts
      rw [List.pairwise_append]
      refine ⟨h2, List.pairwise_singleton _ _, ?_⟩
      intro a ha b hb
      rw [List.mem_singleton.mp hb]
      exact h1 a ha
    next e ts2 hs => exact Result.noConfusion h

theorem run_eof_struct {file : String} {full : List Char} :
    ∀ {fuel : Nat} {st : St} {ts : List Token},
      (∀ t ∈ st.out, t.kind ≠ .TK_EOF) →
      run file full fuel st = .ok ts →
      ∃ ts0 tk, ts = ts0 ++ [tk] ∧ (∀ t ∈ ts0, t.kind ≠ .TK_EOF) ∧
        tk.kind = .TK_EOF ∧
        ∃ r, tk.lexeme = sentinel :: r ∧ full.drop tk.pos = sentinel :: r := by
  intro fuel
  induction fuel with
  | zero => intro st ts h1 h; simp [run] at h
  | succ f ih =>
    intro st ts h1 h
    simp only [run] at h
    split at h
    next st2 hs =>
      obtain ⟨hline, hout⟩ := (step_cont_master hs).1
      refine ih ?_ h
      rcases hout with he | ⟨tk, he, _, hkind, _⟩
      · rw [he]; exact h1
      · rw [he]; intro t ht
        rcases List.mem_append.mp ht with h3 | h3
        · exact h1 t h3
        · rw [List.mem_singleton.mp h3]; exact hkind
    next ts2 hs =>
      injection h with h3
      subst h3
      obtain ⟨r, hdrop, hts⟩ := step_done_inv hs
      subst hts
      exact ⟨st.out, _, rfl, h1, rfl, r, rfl, hdrop⟩
    next e ts2 hs => exact Result.noConfusion h

theorem run_err_noEof {file : String} {full : List Char} :
    ∀ {fuel : Nat} {st : St} {e : Err} {ts : List Token},
      (∀ t ∈ st.out, t.kind ≠ .TK_EOF) →
      run file full fuel st = .err e ts →
      ∀ t ∈ ts, t.kind ≠ .TK_EOF := by
  intro fuel
  induction fuel with
  | zero => intro st e ts h1 h; simp [run] at h
  | succ f ih =>
    intro st e ts h1 h
    simp only [run] at h
    split at h
    next st2 hs =>
      obtain ⟨hline, hout⟩ := (step_cont_master hs).1
      refine ih ?_ h
      rcases hout with he | ⟨tk, he, _, hkind, _⟩
      · rw [he]; exact h1
      · rw [he]; intro t ht
        rcases List.mem_append.mp ht with h3 | h3
        · exact h1 t h3
        · rw [List.mem_singleton.mp h3]; exact hkind
    next ts2 hs => exact Result.noConfusion h
    next e2 ts2 hs =>
      injection h with h3 h4
      subst h4
      exact fun t ht => h1 t (step_fail_inv hs ▸ ht)

theorem run_ok_plain {file : String} {full : List Char} (hp : PlainPre full) :
    ∀ {fuel : Nat} {st : St} {ts : List Token},
      st.line + countNl (full.drop st.pos) = 1 + countNl full →
      (∀ t ∈ st.out, t.line = 1 + countNl (full.take t.pos)) →
      run file full fuel st = .ok ts →
      ∀ t ∈ ts, t.line = 1 + countNl (full.take t.pos) := by
  intro fuel
  induction fuel with
  | zero => intro st ts h1 h2 h; simp [run] at h
  | succ f ih =>
    intro st ts h1 h2 h
    simp only [run] at h
    split at h
    next st2 hs =>
      obtain ⟨hmono, hout⟩ := (step_cont_master hs).1
      obtain ⟨hphi, hpush⟩ := (step_cont_master hs).2 hp
      refine ih (by omega) ?_ h
      rcases hout with he | ⟨tk, he, htl, _, hpos⟩
      · rw [he]; exact h2
      · rw [he]; intro t ht
        rcases List.mem_append.mp ht with h3 | h3
        · exact h2 t h3
        · rw [List.mem_singleton.mp h3, htl, hpos]
          have hne : st2.out ≠ st.out := by
            rw [he]; intro hcontra
            have := congrArg List.length hcontra
            simp at this
          rw [hpush hne]
          have hc := countNl_take_drop full st.pos
          omega
    next ts2 hs =>
      injection h with h3
      subst h3
      obtain ⟨r, hdrop, hts⟩ := step_done_inv hs
      subst hts
      intro t ht
      rcases List.mem_append.mp ht with h3 | h3
      · exact h2 t h3
      · rw [List.mem_singleton.mp h3]
        show st.line = 1 + countNl (full.take st.pos)
        have hc := countNl_take_drop full st.pos
        omega
    next e ts2 hs => exact Result.noConfusion h

theorem suffix_sentinel {input r : List Char} (hs : sentinel ∉ input)
    (h : ∃ p, p ++ sentinel :: r = input ++ [sentinel]) : r = [] := by
  obtain ⟨p, hp⟩ := h
  rcases Nat.lt_or_ge p.length input.length with hlt | hge
  · exfalso
    apply hs
    have h1 : (p ++ sentinel :: r)[p.length]? = some sentinel := by
      rw [List.getElem?_append_right (le_refl p.length)]
      simp
    rw [hp, List.getElem?_append_left hlt] at h1
    obtain ⟨hb, hv⟩ := List.getElem?_eq_some_iff.mp h1
    exact hv ▸ List.getElem_mem hb
  · have hlen := congrArg List.length hp
    simp at hlen
    have : r.length = 0 := by omega
    exact List.eq_nil_of_length_eq_zero this

/-! ## Single-step routing lemmas -/

theorem step_head {file : String} {full : List Char} {st : St} {c : Char}
    {rest : List Char} (h : full.drop st.pos = c :: rest) :
    step file full st = stepChar file full st c rest := by
  unfold step
  rw [h]

theorem stepChar_sentinel {file : String} {full : List Char} {st : St}
    {rest : List Char} :
    stepChar file full st sentinel rest =
      .done (st.out ++
        [⟨.TK_EOF, sentinel :: rest, file, st.line, triviaOf full st,
          st.pos⟩]) := by
  unfold stepChar
  rw [if_pos rfl]

theorem stepChar_newline {file : String} {full : List Char} {st : St}
    {rest : List Char} :
    stepChar file full st '\n' rest = .cont (skipTrivia st 1 1) := rfl

theorem stepChar_pound {file : String} {full : List Char} {st : St}
    {rest : List Char} :
    stepChar file full st '#' rest = directiveStep file full st rest := rfl

theorem stepChar_backquote {file : String} {full : List Char} {st : St}
    {rest : List Char} :
    stepChar file full st '`' rest =
      .fail (.invalidChar '`' file st.line) st.out := rfl

theorem stepChar_backslash_bad {file : String} {full : List Char} {st : St}
    {c : Char} {rest : List Char} (h1 : c ≠ '\n') (h2 : c ≠ '\r') :
    stepChar file full st '\\' (c :: rest) =
      .fail (.misplacedBackslash file st.line) st.out := by
  unfold stepChar
  rw [if_neg (by decide : ¬('\\' : Char) = sentinel)]
  rw [show oneCharTok '\\' = none from rfl]
  rw [show twoCharTok '\\' = none from rfl]
  rw [show twoChar2Tok '\\' = none from rfl]
  rw [show threeCharTok '\\' = none from rfl]
  rw [if_neg (by decide : ¬('\\' : Char) = '/')]
  rw [if_pos (rfl : ('\\' : Char) = '\\')]
  rw [show (c :: rest).headD sentinel = c from rfl]
  rw [if_neg (fun hor => hor.elim h1 h2)]

theorem run_two_ok {file : String} {full : List Char} {st0 st1 : St}
    {ts : List Token} {f : Nat} (h1 : step file full st0 = .cont st1)
    (h2 : step file full st1 = .done ts) :
    run file full (f + 2) st0 = .ok ts :=
  (runCont h1).trans (runDone h2)

theorem run_three_ok {file : String} {full : List Char} {st0 st1 st2 : St}
    {ts : List Token} {f : Nat} (h1 : step file full st0 = .cont st1)
    (h2 : step file full st1 = .cont st2) (h3 : step file full st2 = .done ts) :
    run file full (f + 3) st0 = .ok ts :=
  (runCont h1).trans ((runCont h2).trans (runDone h3))

theorem findNl_of_not_mem {l r : List Char} (h : '\n' ∉ l) :
    findNl (l ++ '\n' :: r) = some l.length := by
  induction l with
  | nil => simp [findNl]
  | cons c cs ih =>
    have hc : ¬ c = '\n' := fun he => h (he ▸ List.mem_cons_self c cs)
    have hm : '\n' ∉ cs := fun hx => h (List.mem_cons_of_mem _ hx)
    simp [findNl, hc, ih hm]

theorem startsWithKw_self_append (k x : List Char) :
    startsWithKw k (k ++ x) = true := by
  induction k with
  | nil => rfl
  | cons a as ih => simp [startsWithKw, ih]

theorem hashQfLen_eq {rest pre tail : List Char} (hsp : spacesLen rest = 0)
    (hshape : rest = pre ++ '\n' :: tail) (hnl : '\n' ∉ pre)
    (hb : pre.length + 1 < w64) :
    hashQfLen rest = 1 + pre.length := by
  unfold hashQfLen
  rw [hsp, List.drop_zero, hshape, findNl_of_not_mem hnl]
  show (1 + 0 + pre.length) % w64 = 1 + pre.length
  rw [Nat.mod_eq_of_lt (by omega)]

theorem directiveStep_line {file : String} {full : List Char} {st : St}
    {rest : List Char} {L : Nat} (hsp : spacesLen rest = 0)
    (hl : startsWithKw ("line".toList) rest = true)
    (hqf : hashQfLen rest = L) :
    directiveStep file full st rest = .cont (emitTok file full st .TK_HASHLINE L) := by
  unfold directiveStep
  rw [hsp, List.drop_zero, if_pos hl, hqf]

theorem directiveStep_we {file : String} {full : List Char} {st : St}
    {rest : List Char} {L : Nat} (hsp : spacesLen rest = 0)
    (hline : startsWithKw ("line".toList) rest = false)
    (hwe : startsWithKw ("warning".toList) rest = true ∨
      startsWithKw ("error".toList) rest = true)
    (hqf : hashQfLen rest = L) (hL : L ≠ 0) :
    directiveStep file full st rest = .cont (emitTok file full st .TK_ERROR L) := by
  unfold directiveStep
  rw [hsp, List.drop_zero]
  rw [if_neg (fun hcon => by rw [hline] at hcon; exact Bool.noConfusion hcon)]
  rw [if_pos hwe, hqf, if_neg hL]

theorem oneCharTok_of_cntrl {c : Char} (h : cIsCntrl c = true) :
    oneCharTok c = none := by
  unfold oneCharTok
  split_ifs <;> first | rfl | (subst_vars; exact absurd h (by decide))

theorem twoCharTok_of_cntrl {c : Char} (h : cIsCntrl c = true) :
    twoCharTok c = none := by
  unfold twoCharTok
  split_ifs <;> first | rfl | (subst_vars; exact absurd h (by decide))

theorem twoChar2Tok_of_cntrl {c : Char} (h : cIsCntrl c = true) :
    twoChar2Tok c = none := by
  unfold twoChar2Tok
  split_ifs <;> first | rfl | (subst_vars; exact absurd h (by decide))

theorem threeCharTok_of_cntrl {c : Char} (h : cIsCntrl c = true) :
    threeCharTok c = none := by
  unfold threeCharTok
  split_ifs <;> first | rfl | (subst_vars; exact absurd h (by decide))

theorem stepChar_cntrl {file : String} {full : List Char} {st : St} {c : Char}
    {rest : List Char} (h : cIsCntrl c = true) (h0 : c ≠ sentinel)
    (h1 : c ≠ '\n') (h2 : c ≠ '\r') (h3 : c ≠ '\t') :
    stepChar file full st c rest = .cont (skipTrivia st 1 0) := by
  have hd : ¬ cIsDigit c = true := by
    intro hd
    simp only [cIsCntrl, cIsDigit, Bool.or_eq_true, Bool.and_eq_true,
      decide_eq_true_eq, Nat.lt_irrefl, beq_iff_eq] at h hd
    omega
  unfold stepChar
  rw [if_neg h0, oneCharTok_of_cntrl h, twoCharTok_of_cntrl h,
    twoChar2Tok_of_cntrl h, threeCharTok_of_cntrl h]
  rw [if_neg (fun he : c = '/' => absurd (he ▸ h) (by decide))]
  rw [if_neg (fun he : c = '\\' => absurd (he ▸ h) (by decide))]
  rw [if_neg h1, if_neg h2]
  rw [if_neg (fun he : c = '-' => absurd (he ▸ h) (by decide))]
  rw [if_neg (fun hor : c = ' ' ∨ c = '\t' => hor.elim
    (fun he => absurd (he ▸ h) (by decide)) h3)]
  rw [if_neg (fun he : c = '`' => absurd (he ▸ h) (by decide))]
  rw [if_neg hd]
  rw [if_neg (fun he : c = '.' => absurd (he ▸ h) (by decide))]
  rw [if_neg (fun he : c = '\'' => absurd (he ▸ h) (by decide))]
  rw [if_neg (fun he : c = '"' => absurd (he ▸ h) (by decide))]
  rw [if_neg (fun he : c = '#' => absurd (he ▸ h) (by decide))]
  rw [if_pos h]

theorem stepChar_unrecognized {file : String} {full : List Char} {st : St}
    {c : Char} {rest : List Char} (hrec : recognizedChar c = false)
    (hctl : cIsCntrl c = false) (hbq : c ≠ '`') :
    stepChar file full st c rest =
      .fail (.unrecognizedChar file st.line) st.out := by
  have h0 : c ≠ sentinel := fun he => by
    rw [he] at hctl
    exact absurd hctl (by decide)
  have hone : oneCharTok c = none := by
    cases ho : oneCharTok c with
    | none => rfl
    | some t =>
      unfold recognizedChar at hrec
      rw [ho] at hrec
      simp at hrec
  have htwo : twoCharTok c = none := by
    cases ho : twoCharTok c with
    | none => rfl
    | some t =>
      unfold recognizedChar at hrec
      rw [ho] at hrec
      simp at hrec
  have htwo2 : twoChar2Tok c = none := by
    cases ho : twoChar2Tok c with
    | none => rfl
    | some t =>
      unfold recognizedChar at hrec
      rw [ho] at hrec
      simp at hrec
  have hthree : threeCharTok c = none := by
    cases ho : threeCharTok c with
    | none => rfl
    | some t =>
      unfold recognizedChar at hrec
      rw [ho] at hrec
      simp at hrec
  have hd : ¬ cIsDigit c = true := by
    intro hd
    unfold recognizedChar at hrec
    simp [hd] at hrec
  have halpha : ¬ (cIsAlpha c = true ∨ c = '_' ∨ c = '$' ∨ c = '@') := by
    intro hor
    rcases hor with ha | ha | ha | ha
    · unfold recognizedChar at hrec
      simp [ha] at hrec
    all_goals exact absurd (ha ▸ hrec) (by decide)
  unfold stepChar
  rw [if_neg h0, hone, htwo, htwo2, hthree]
  rw [if_neg (fun he : c = '/' => absurd (he ▸ hrec) (by decide))]
  rw [if_neg (fun he : c = '\\' => absurd (he ▸ hrec) (by decide))]
  rw [if_neg (fun he : c = '\n' => absurd (he ▸ hrec) (by decide))]
  rw [if_neg (fun he : c = '\r' => absurd (he ▸ hrec) (by decide))]
  rw [if_neg (fun he : c = '-' => absurd (he ▸ hrec) (by decide))]
  rw [if_neg (fun hor : c = ' ' ∨ c = '\t' => hor.elim
    (fun he => absurd (he ▸ hrec) (by decide))
    (fun he => absurd (he ▸ hrec) (by decide)))]
  rw [if_neg hbq, if_neg hd]
  rw [if_neg (fun he : c = '.' => absurd (he ▸ hrec) (by decide))]
  rw [if_neg (fun he : c = '\'' => absurd (he ▸ hrec) (by decide))]
  rw [if_neg (fun he : c = '"' => absurd (he ▸ hrec) (by decide))]
  rw [if_neg (fun he : c = '#' => absurd (he ▸ hrec) (by decide))]
  rw [if_neg (by simp [hctl]), if_neg halpha]

set_option maxHeartbeats 1600000 in
/-- Shared skeleton for the `#line`/`#warning`/`#error` general theorems:
once the first iteration emits the directive token covering `#`, the
keyword and the message (everything before the newline), the newline is
folded into trivia and the sentinel ends the scan. -/
theorem tokenize_directive_general (file : String) (kwL msg : List Char)
    (t : TokenType)
    (hstep1 : step file (('#' :: (kwL ++ (msg ++ ['\n']))) ++ [sentinel])
        initSt =
      .cont (emitTok file (('#' :: (kwL ++ (msg ++ ['\n']))) ++ [sentinel])
        initSt t (1 + (kwL ++ msg).length))) :
    tokenize ('#' :: (kwL ++ (msg ++ ['\n']))) file =
      .ok [⟨t, '#' :: (kwL ++ msg), file, 1, [], 0⟩,
           ⟨.TK_EOF, [sentinel], file, 2, ['\n'],
             kwL.length + msg.length + 2⟩] := by
  set F := ('#' :: (kwL ++ (msg ++ ['\n']))) ++ [sentinel] with hF
  set L := 1 + (kwL ++ msg).length with hLdef
  set st1 := emitTok file F initSt t L with hst1
  set st2 := skipTrivia st1 1 1 with hst2
  have hsplit : F = ('#' :: (kwL ++ msg)) ++ '\n' :: [sentinel] := by
    rw [hF]; simp
  have hlen1 : ('#' :: (kwL ++ msg)).length = 0 + L := by
    rw [hLdef]; simp only [List.length_cons]; omega
  have hlenL : ('#' :: (kwL ++ msg)).length = L := by
    rw [hLdef]; simp only [List.length_cons]; omega
  have hdrop1 : F.drop st1.pos = '\n' :: [sentinel] := by
    show F.drop (0 + L) = '\n' :: [sentinel]
    rw [hsplit]
    exact List.drop_left' hlen1
  have hlex : F.take L = '#' :: (kwL ++ msg) := by
    rw [hsplit]
    exact List.take_left' hlenL
  have hs2 : step file F st1 = .cont st2 := by
    rw [step_head hdrop1, stepChar_newline]
  have hdrop2 : F.drop st2.pos = sentinel :: [] := by
    show F.drop (st1.pos + 1) = sentinel :: []
    rw [dropAdd F st1.pos 1, hdrop1]
    rfl
  have hs3 : step file F st2 =
      .done (st2.out ++ [⟨.TK_EOF, [sentinel], file, st2.line,
        triviaOf F st2, st2.pos⟩]) := by
    rw [step_head hdrop2]
    exact stepChar_sentinel
  have hrun : run file F ((kwL.length + msg.length + 1) + 3) initSt =
      .ok (st2.out ++ [⟨.TK_EOF, [sentinel], file, st2.line,
        triviaOf F st2, st2.pos⟩]) :=
    run_three_ok hstep1 hs2 hs3
  have hout : st2.out ++ [⟨.TK_EOF, [sentinel], file, st2.line,
      triviaOf F st2, st2.pos⟩] =
      [⟨t, '#' :: (kwL ++ msg), file, 1, [], 0⟩,
       ⟨.TK_EOF, [sentinel], file, 2, ['\n'],
         kwL.length + msg.length + 2⟩] := by
    have htriv : triviaOf F st2 = ['\n'] := by
      show (F.drop (0 + L)).take (0 + 1) = ['\n']
      rw [show F.drop (0 + L) = '\n' :: [sentinel] from hdrop1]
      rfl
    have hpos2 : st2.pos = kwL.length + msg.length + 2 := by
      show (0 + L) + 1 = kwL.length + msg.length + 2
      rw [hLdef]
      simp only [List.length_append]
      omega
    have hline2 : st2.line = 2 := rfl
    have houtp : st2.out = [⟨t, '#' :: (kwL ++ msg), file, 1, [], 0⟩] := by
      show [(⟨t, F.take L, file, 1, ([] : List Char), 0⟩ : Token)] = _
      rw [hlex]
    rw [houtp, htriv, hpos2, hline2]
    rfl
  have hfuel : ('#' :: (kwL ++ (msg ++ ['\n']))).length + 2 =
      (kwL.length + msg.length + 1) + 3 := by
    simp only [List.length_cons, List.length_append, List.length_nil]
    omega
  unfold tokenize
  rw [hfuel]
  exact hrun.trans (congrArg Result.ok hout)

/-! ## Claim theorems: concrete evaluations -/

/-- C1: the claim states that concatenating each token's leading trivia and
lexeme, in order, reconstructs the input up to and including the sentinel.
The code violates this: `preTokenPtr`/`preTokenLen` are reset only at the
shared `INSERT_TOKEN` emission point, not after the direct pushes of
identifier/number/literal/EOF tokens, so trivia consumed after a directly
pushed token is measured from a stale pointer.  On input `a b` the second
identifier's trivia view is `"a"` (the previous lexeme) instead of `" "`,
and the reconstruction yields `aaba\0` instead of `a b\0`. -/
theorem c1_trivia_reset_bug :
    tokenize ['a', ' ', 'b'] "f" =
      .ok [⟨.TK_IDENTIFIER, ['a'], "f", 1, [], 0⟩,
           ⟨.TK_IDENTIFIER, ['b'], "f", 1, ['a'], 2⟩,
           ⟨.TK_EOF, [sentinel], "f", 1, ['a'], 3⟩] ∧
    reconOf (tokenize ['a', ' ', 'b'] "f") ≠
      some (['a', ' ', 'b'] ++ [sentinel]) :=
  ⟨rfl, by decide⟩

/-- C5: `munchNumber` absorbs a sign exactly after an exponent marker:
`1.5e-10` is one number token; `1-5` is number, minus, number; `0x1.8p3` is
one hex-float number token. -/
theorem c5_number_sign_absorption :
    tokenize "1.5e-10".toList "f" =
      .ok [⟨.TK_NUMBER, "1.5e-10".toList, "f", 1, [], 0⟩,
           ⟨.TK_EOF, [sentinel], "f", 1, [], 7⟩] ∧
    tokenize "1-5".toList "f" =
      .ok [⟨.TK_NUMBER, ['1'], "f", 1, [], 0⟩,
           ⟨.TK_MINUS, ['-'], "f", 1, [], 1⟩,
           ⟨.TK_NUMBER, ['5'], "f", 1, [], 2⟩,
           ⟨.TK_EOF, [sentinel], "f", 1, [], 3⟩] ∧
    tokenize "0x1.8p3".toList "f" =
      .ok [⟨.TK_NUMBER, "0x1.8p3".toList, "f", 1, [], 0⟩,
           ⟨.TK_EOF, [sentinel], "f", 1, [], 7⟩] :=
  ⟨rfl, rfl, rfl⟩

/-- C7 (amended): an unterminated string literal and an unterminated block
comment fail with the corresponding unterminated-error kinds, but these
errors carry only the remaining input from the construct's start — not the
filename and not the starting line: the same error value is produced for any
filename and regardless of the line the construct starts on.  Only the
misplaced-continuation and invalid/unrecognized-character errors carry
filename and line. -/
theorem c7_unterminated_errors :
    tokenize ['"', 'a', 'b', 'c'] "f" =
      .err (.unterminatedStringLit ['"', 'a', 'b', 'c', sentinel]) [] ∧
    tokenize ['/', '*', ' ', 'a', 'b', 'c'] "f" =
      .err (.unterminatedComment ['/', '*', ' ', 'a', 'b', 'c', sentinel]) [] ∧
    tokenize ['/', '*', ' ', 'a', 'b', 'c'] "other.cpp" =
      tokenize ['/', '*', ' ', 'a', 'b', 'c'] "f" ∧
    tokenize ['\n', '\n', '"', 'a', 'b', 'c'] "g" =
      .err (.unterminatedStringLit ['"', 'a', 'b', 'c', sentinel])
        [] ∧
    errHasFileAndLine (.unterminatedStringLit ['"', 'a', 'b', 'c', sentinel]) =
      false ∧
    errHasFileAndLine (.unterminatedComment ['/', '*', ' ', 'a', 'b', 'c',
      sentinel]) = false ∧
    ∀ (file : String) (line : Nat),
      errHasFileAndLine (.misplacedBackslash file line) = true :=
  ⟨rfl, rfl, rfl, rfl, rfl, rfl, fun _ _ => rfl⟩

/-- C7 (counterexample): it is not the case that every lexical error carries
the filename and line: the unterminated-comment error raised on `/* abc`
carries neither. -/
theorem c7_counterexample :
    ¬ (∀ (input : List Char) (file : String) (e : Err) (ts : List Token),
        tokenize input file = .err e ts → errHasFileAndLine e = true) := by
  intro h
  exact absurd
    (h ['/', '*', ' ', 'a', 'b', 'c'] "f"
      (.unterminatedComment ['/', '*', ' ', 'a', 'b', 'c', sentinel]) [] rfl)
    (by decide)

/-- C8 (counterexample): failure is not atomic with respect to the output:
on input `1 "abc` the error is raised after the number token `1` was already
pushed into the caller-visible output vector, so the caller sees a partially
tokenized prefix. -/
theorem c8_counterexample :
    ¬ (∀ (input : List Char) (file : String) (e : Err) (ts : List Token),
        tokenize input file = .err e ts → ts = []) := by
  intro h
  exact absurd
    (h ['1', ' ', '"', 'a', 'b', 'c'] "f"
      (.unterminatedStringLit ['"', 'a', 'b', 'c', sentinel])
      [⟨.TK_NUMBER, ['1'], "f", 1, [], 0⟩] rfl)
    (by decide)

/-- C9 (counterexample): a backslash followed by a carriage return — not a
newline — does not raise the misplaced-continuation error: it is accepted as
a continuation (and even increments the line counter). -/
theorem c9_counterexample :
    ¬ (∀ (c : Char) (rest : List Char) (file : String), c ≠ '\n' →
        isMisplacedErr (tokenize ('\\' :: c :: rest) file) = true) := by
  intro h
  exact absurd (h '\r' [] "f" (by decide)) (by decide)

/-- C2 (counterexample): the line counter does not increment once per
consumed newline: a raw (unescaped) newline inside a string literal is
consumed without incrementing, so on `"a<nl>b"` the final EndOfInput token
reports line 1 although one newline was consumed. -/
theorem c2_counterexample :
    ¬ (∀ (input : List Char) (file : String) (ts : List Token),
        tokenize input file = .ok ts →
        List.Pairwise (fun a b => a.line ≤ b.line) ts ∧
        (ts.getLast?).map Token.line = some (1 + countNl input)) := by
  intro h
  exact absurd
    (h ['"', 'a', '\n', 'b', '"'] "f"
      [⟨.TK_STRING_LITERAL, ['"', 'a', '\n', 'b', '"'], "f", 1, [], 0⟩,
       ⟨.TK_EOF, [sentinel], "f", 1, [], 5⟩] rfl).2
    (by decide)

/-- C3 (counterexample): a token's recorded line is not always the line of
its first character: a string literal containing a backslash-escaped newline
starts on line 1 but is pushed with the updated counter, recording line 2
(the munchers update `line` by reference before the push reads it). -/
theorem c3_counterexample :
    ¬ (∀ (input : List Char) (file : String) (ts : List Token) (t : Token),
        tokenize input file = .ok ts → t ∈ ts →
        t.line = 1 + countNl ((input ++ [sentinel]).take t.pos)) := by
  intro h
  exact absurd
    (h ['"', 'a', '\\', '\n', 'b', '"'] "f"
      [⟨.TK_STRING_LITERAL, ['"', 'a', '\\', '\n', 'b', '"'], "f", 2, [], 0⟩,
       ⟨.TK_EOF, [sentinel], "f", 2, [], 6⟩]
      ⟨.TK_STRING_LITERAL, ['"', 'a', '\\', '\n', 'b', '"'], "f", 2, [], 0⟩
      rfl (by decide))
    (by decide)

/-! ## Claim theorems: structural properties -/

/-- C2 (amended): token line values are monotonically non-decreasing across
every successful tokenization.  The "exactly once per newline consumed"
accounting holds for inputs without string/character literals, carriage
returns, `#` characters and embedded sentinels ("plain" inputs): there the
final EndOfInput token's line is 1 plus the number of newlines in the input.
(In general the accounting fails: raw newlines inside literals are not
counted, a backslash-CR continuation increments without a newline, and a
bare `#`/`##` token can absorb a newline; see the counterexample.) -/
theorem c2_line_monotone_and_plain_count :
    (∀ (input : List Char) (file : String) (ts : List Token),
      tokenize input file = .ok ts →
      List.Pairwise (fun a b => a.line ≤ b.line) ts) ∧
    (∀ (input : List Char) (file : String) (ts : List Token),
      (∀ c ∈ input, plainChar c = true) →
      tokenize input file = .ok ts →
      (ts.getLast?).map Token.line = some (1 + countNl input)) := by
  constructor
  · intro input file ts h
    unfold tokenize at h
    exact run_ok_pairwise (by simp [initSt]) (by simp [initSt]) h
  · intro input file ts hplain h
    unfold tokenize at h
    have hp : PlainPre (input ++ [sentinel]) := by
      intro x hx
      rcases List.mem_append.mp hx with h1 | h1
      · exact Or.inl (hplain x h1)
      · exact Or.inr (List.mem_singleton.mp h1)
    have hsent : sentinel ∉ input := by
      intro hx
      exact absurd (hplain sentinel hx) (by decide)
    obtain ⟨ts0, tk, hts, h0, hkind, r, hlex, hdrop⟩ :=
      run_eof_struct (by simp [initSt]) h
    have hr : r = [] := suffix_sentinel hsent
      ⟨(input ++ [sentinel]).take tk.pos,
        by rw [← hdrop]; exact List.take_append_drop _ _⟩
    subst hr
    have hmem : tk ∈ ts := by
      rw [hts]; exact List.mem_append_right _ (List.mem_singleton_self _)
    have hline := run_ok_plain hp (by simp [initSt]) (by simp [initSt]) h tk hmem
    have hlen := congrArg List.length hdrop
    simp at hlen
    have hpos : tk.pos = input.length := by omega
    rw [hts, List.getLast?_concat]
    simp only [Option.map_some']
    rw [hline, hpos, List.take_left]

/-- C3 (amended): over plain inputs (no string/character literals, no
carriage returns, no `#`, no embedded sentinel), every token's recorded
line is the 1-based line number of its first character — 1 plus the number
of newlines in the buffer before the token's offset.  (In general this
fails: string/character literals record the counter after the munch, i.e.
the line of the closing quote when the literal spans lines, and raw
newlines inside literals desynchronize the counter for later tokens; see
the counterexample.) -/
theorem c3_token_line_plain :
    ∀ (input : List Char) (file : String) (ts : List Token) (t : Token),
      (∀ c ∈ input, plainChar c = true) →
      tokenize input file = .ok ts → t ∈ ts →
      t.line = 1 + countNl ((input ++ [sentinel]).take t.pos) := by
  intro input file ts t hplain h hmem
  unfold tokenize at h
  have hp : PlainPre (input ++ [sentinel]) := by
    intro x hx
    rcases List.mem_append.mp hx with h1 | h1
    · exact Or.inl (hplain x h1)
    · exact Or.inr (List.mem_singleton.mp h1)
  exact run_ok_plain hp (by simp [initSt]) (by simp [initSt]) h t hmem

/-- C4: every successful tokenization of a sentinel-free input (the
documented input contract) ends in exactly one EndOfInput token: it is the
last element, its lexeme is exactly the single sentinel, and no other token
has kind EndOfInput. -/
theorem c4_eof_terminator :
    ∀ (input : List Char) (file : String) (ts : List Token),
      sentinel ∉ input →
      tokenize input file = .ok ts →
      ∃ ts0 tk, ts = ts0 ++ [tk] ∧ tk.kind = .TK_EOF ∧
        tk.lexeme = [sentinel] ∧ ∀ t ∈ ts0, t.kind ≠ .TK_EOF := by
  intro input file ts hsent h
  unfold tokenize at h
  obtain ⟨ts0, tk, hts, h0, hkind, r, hlex, hdrop⟩ :=
    run_eof_struct (by simp [initSt]) h
  have hr : r = [] := suffix_sentinel hsent
    ⟨(input ++ [sentinel]).take tk.pos,
      by rw [← hdrop]; exact List.take_append_drop _ _⟩
  subst hr
  exact ⟨ts0, tk, hts, hkind, hlex, h0⟩

/-- C8 (amended): a failed tokenize call never returns a complete token
sequence: the caller-visible output on failure contains no EndOfInput
token — though it does retain the (possibly nonempty) tokens emitted before
the error, so a partially tokenized prefix is visible to the caller (see
the counterexample). -/
theorem c8_failure_incomplete :
    ∀ (input : List Char) (file : String) (e : Err) (ts : List Token),
      tokenize input file = .err e ts →
      ∀ t ∈ ts, t.kind ≠ .TK_EOF := by
  intro input file e ts h
  unfold tokenize at h
  exact run_err_noEof (by simp [initSt]) h

/-- Witness for C2: the amended claim applied to the concrete input
`x<newline>y`. -/
theorem c2_witness :
    List.Pairwise (fun a b => a.line ≤ b.line)
      ([⟨.TK_IDENTIFIER, ['x'], "f", 1, [], 0⟩,
        ⟨.TK_IDENTIFIER, ['y'], "f", 2, ['x'], 2⟩,
        ⟨.TK_EOF, [sentinel], "f", 2, ['x'], 3⟩] : List Token) ∧
    (([⟨.TK_IDENTIFIER, ['x'], "f", 1, [], 0⟩,
       ⟨.TK_IDENTIFIER, ['y'], "f", 2, ['x'], 2⟩,
       ⟨.TK_EOF, [sentinel], "f", 2, ['x'], 3⟩] : List Token).getLast?).map
      Token.line = some (1 + countNl ['x', '\n', 'y']) :=
  ⟨c2_line_monotone_and_plain_count.1 ['x', '\n', 'y'] "f" _ rfl,
   c2_line_monotone_and_plain_count.2 ['x', '\n', 'y'] "f" _ (by decide) rfl⟩

/-- Witness for C3: the amended claim applied to the token `y` of the
concrete input `x<newline>y`. -/
theorem c3_witness :
    (⟨.TK_IDENTIFIER, ['y'], "f", 2, ['x'], 2⟩ : Token).line =
      1 + countNl ((['x', '\n', 'y'] ++ [sentinel]).take 2) :=
  c3_token_line_plain ['x', '\n', 'y'] "f"
    [⟨.TK_IDENTIFIER, ['x'], "f", 1, [], 0⟩,
     ⟨.TK_IDENTIFIER, ['y'], "f", 2, ['x'], 2⟩,
     ⟨.TK_EOF, [sentinel], "f", 2, ['x'], 3⟩]
    ⟨.TK_IDENTIFIER, ['y'], "f", 2, ['x'], 2⟩ (by decide) rfl (by decide)

/-- Witness for C4: the claim applied to the concrete input `a`. -/
theorem c4_witness :
    ∃ ts0 tk,
      ([⟨.TK_IDENTIFIER, ['a'], "f", 1, [], 0⟩,
        ⟨.TK_EOF, [sentinel], "f", 1, [], 1⟩] : List Token) = ts0 ++ [tk] ∧
      tk.kind = .TK_EOF ∧ tk.lexeme = [sentinel] ∧
      ∀ t ∈ ts0, t.kind ≠ .TK_EOF :=
  c4_eof_terminator ['a'] "f" _ (by decide) rfl

/-- Witness for C8: the amended claim applied to the concrete failing
input `1 "abc` and the number token it leaves in the output. -/
theorem c8_witness :
    (⟨.TK_NUMBER, ['1'], "f", 1, [], 0⟩ : Token).kind ≠ .TK_EOF :=
  c8_failure_incomplete ['1', ' ', '"', 'a', 'b', 'c'] "f"
    (.unterminatedStringLit ['"', 'a', 'b', 'c', sentinel]) _ rfl
    ⟨.TK_NUMBER, ['1'], "f", 1, [], 0⟩ (by decide)

/-- Witness for C7: the carrying conjunct applied to concrete values. -/
theorem c7_witness :
    errHasFileAndLine (.misplacedBackslash "g" 3) = true :=
  c7_unterminated_errors.2.2.2.2.2.2 "g" 3

/-- C9 (amended): a backslash outside a literal or comment followed by any
character other than a newline or a carriage return fails with the
misplaced-continuation error; a backslash-newline pair is folded into trivia
and increments the line counter.  (The claim as stated is corrected by
`c9_counterexample`: a backslash-carriage-return pair is also accepted.) -/
theorem c9_backslash_continuation :
    (∀ (c : Char) (rest : List Char) (file : String), c ≠ '\n' → c ≠ '\r' →
      tokenize ('\\' :: c :: rest) file =
        .err (.misplacedBackslash file 1) []) ∧
    tokenize ['\\', '\n'] "f" =
      .ok [⟨.TK_EOF, [sentinel], "f", 2, ['\\', '\n'], 2⟩] ∧
    tokenize ['\\', '\r'] "f" =
      .ok [⟨.TK_EOF, [sentinel], "f", 2, ['\\', '\r'], 2⟩] := by
  refine ⟨?_, rfl, rfl⟩
  intro c rest file h1 h2
  have hstep : step file (('\\' :: c :: rest) ++ [sentinel]) initSt =
      .fail (.misplacedBackslash file 1) [] := by
    rw [step_head (rfl :
      (('\\' :: c :: rest) ++ [sentinel]).drop initSt.pos =
        '\\' :: (c :: (rest ++ [sentinel])))]
    exact stepChar_backslash_bad h1 h2
  unfold tokenize
  exact runFail hstep

/-- C9 witness: a backslash followed by the letter `x` is rejected with the
misplaced-continuation error. -/
theorem c9_witness :
    tokenize ['\\', 'x'] "f" = .err (.misplacedBackslash "f" 1) [] :=
  c9_backslash_continuation.1 'x' [] "f" (by decide) (by decide)

/-- C10: a control character other than the sentinel, newline, carriage
return and tab is silently folded into leading trivia (here: alone before
end of input, so it becomes the EOF token's trivia); a backquote fails with
the invalid-character error; any other non-control character outside the
recognized alphabet fails with the unrecognized-character error. -/
theorem c10_control_and_invalid_chars :
    (∀ (c : Char) (file : String), cIsCntrl c = true → c ≠ sentinel →
      c ≠ '\n' → c ≠ '\r' → c ≠ '\t' →
      tokenize [c] file = .ok [⟨.TK_EOF, [sentinel], file, 1, [c], 1⟩]) ∧
    (∀ (rest : List Char) (file : String),
      tokenize ('`' :: rest) file = .err (.invalidChar '`' file 1) []) ∧
    (∀ (c : Char) (rest : List Char) (file : String),
      cIsCntrl c = false → recognizedChar c = false → c ≠ '`' →
      tokenize (c :: rest) file = .err (.unrecognizedChar file 1) []) := by
  refine ⟨?_, ?_, ?_⟩
  · intro c file h h0 h1 h2 h3
    have hs1 : step file ([c] ++ [sentinel]) initSt =
        .cont (skipTrivia initSt 1 0) := by
      rw [step_head (rfl :
        ([c] ++ [sentinel]).drop initSt.pos = c :: [sentinel])]
      exact stepChar_cntrl h h0 h1 h2 h3
    have hs2 : step file ([c] ++ [sentinel]) (skipTrivia initSt 1 0) =
        .done [⟨.TK_EOF, [sentinel], file, 1, [c], 1⟩] := by
      rw [step_head (rfl :
        ([c] ++ [sentinel]).drop (skipTrivia initSt 1 0).pos =
          sentinel :: [])]
      rw [stepChar_sentinel]
      rfl
    unfold tokenize
    exact run_two_ok hs1 hs2
  · intro rest file
    have hstep : step file (('`' :: rest) ++ [sentinel]) initSt =
        .fail (.invalidChar '`' file 1) [] := by
      rw [step_head (rfl :
        (('`' :: rest) ++ [sentinel]).drop initSt.pos =
          '`' :: (rest ++ [sentinel]))]
      exact stepChar_backquote
    unfold tokenize
    exact runFail hstep
  · intro c rest file hctl hrec hbq
    have hstep : step file ((c :: rest) ++ [sentinel]) initSt =
        .fail (.unrecognizedChar file 1) [] := by
      rw [step_head (rfl :
        ((c :: rest) ++ [sentinel]).drop initSt.pos =
          c :: (rest ++ [sentinel]))]
      exact stepChar_unrecognized hrec hctl hbq
    unfold tokenize
    exact runFail hstep

/-- C10 witness: a form feed becomes trivia; a lone backquote raises the
invalid-character error; the byte 128 raises the unrecognized-character
error. -/
theorem c10_witness :
    tokenize [Char.ofNat 12] "f" =
      .ok [⟨.TK_EOF, [sentinel], "f", 1, [Char.ofNat 12], 1⟩] ∧
    tokenize ['`'] "f" = .err (.invalidChar '`' "f" 1) [] ∧
    tokenize [Char.ofNat 128] "f" = .err (.unrecognizedChar "f" 1) [] :=
  ⟨c10_control_and_invalid_chars.1 (Char.ofNat 12) "f" (by decide) (by decide)
      (by decide) (by decide) (by decide),
   c10_control_and_invalid_chars.2.1 [] "f",
   c10_control_and_invalid_chars.2.2 (Char.ofNat 128) [] "f" (by decide)
      (by decide) (by decide)⟩

/-- C6: once a `#line`, `#warning` or `#error` keyword is recognized, the
rest of the physical line up to but excluding the newline is consumed into
that single token's lexeme.  First conjunct: the claim's example
`#error boom\nint x;` yields the error-kind token with lexeme `#error boom`
followed by `int`, `x`, `;` and EOF.  Remaining conjuncts: for any
newline-free message short enough not to wrap the 64-bit length arithmetic,
`#error<msg>\n`, `#warning<msg>\n` and `#line<msg>\n` each produce exactly
one directive token whose lexeme is the whole line without the newline. -/
theorem c6_directive_line_capture :
    tokenize "#error boom\nint x;".toList "f" =
      .ok [⟨.TK_ERROR, "#error boom".toList, "f", 1, [], 0⟩,
           ⟨.TK_INT, "int".toList, "f", 2, ['\n'], 12⟩,
           ⟨.TK_IDENTIFIER, ['x'], "f", 2, ['\n', 'i'], 16⟩,
           ⟨.TK_SEMICOLON, [';'], "f", 2, ['\n', 'i'], 17⟩,
           ⟨.TK_EOF, [sentinel], "f", 2, [], 18⟩] ∧
    (∀ (msg : List Char) (file : String), '\n' ∉ msg → msg.length < 2 ^ 32 →
      tokenize ('#' :: ("error".toList ++ (msg ++ ['\n']))) file =
        .ok [⟨.TK_ERROR, '#' :: ("error".toList ++ msg), file, 1, [], 0⟩,
             ⟨.TK_EOF, [sentinel], file, 2, ['\n'], msg.length + 7⟩]) ∧
    (∀ (msg : List Char) (file : String), '\n' ∉ msg → msg.length < 2 ^ 32 →
      tokenize ('#' :: ("warning".toList ++ (msg ++ ['\n']))) file =
        .ok [⟨.TK_ERROR, '#' :: ("warning".toList ++ msg), file, 1, [], 0⟩,
             ⟨.TK_EOF, [sentinel], file, 2, ['\n'], msg.length + 9⟩]) ∧
    (∀ (msg : List Char) (file : String), '\n' ∉ msg → msg.length < 2 ^ 32 →
      tokenize ('#' :: ("line".toList ++ (msg ++ ['\n']))) file =
        .ok [⟨.TK_HASHLINE, '#' :: ("line".toList ++ msg), file, 1, [], 0⟩,
             ⟨.TK_EOF, [sentinel], file, 2, ['\n'], msg.length + 6⟩]) := by
  refine ⟨by rfl, ?_, ?_, ?_⟩
  · intro msg file hnl hlen
    have hnl2 : '\n' ∉ "error".toList ++ msg := by
      intro hx
      rcases List.mem_append.mp hx with hx | hx
      · exact absurd hx (by decide)
      · exact hnl hx
    have hb : ("error".toList ++ msg).length + 1 < w64 := by
      have hc1 : ("error".toList ++ msg).length = 5 + msg.length := by
        simp; omega
      have hc2 : w64 = 18446744073709551616 := by norm_num [w64]
      have hc3 : (2 : ℕ) ^ 32 = 4294967296 := by norm_num
      omega
    have hsh : ("error".toList ++ (msg ++ ['\n'])) ++ [sentinel] =
        ("error".toList ++ msg) ++ '\n' :: [sentinel] := by simp
    have hqf : hashQfLen (("error".toList ++ (msg ++ ['\n'])) ++ [sentinel]) =
        1 + ("error".toList ++ msg).length :=
      hashQfLen_eq rfl hsh hnl2 hb
    have hgen := tokenize_directive_general file "error".toList msg .TK_ERROR
      (by
        rw [step_head (rfl :
          (('#' :: ("error".toList ++ (msg ++ ['\n']))) ++ [sentinel]).drop
              initSt.pos =
            '#' :: (("error".toList ++ (msg ++ ['\n'])) ++ [sentinel]))]
        rw [stepChar_pound]
        exact directiveStep_we rfl rfl (Or.inr (startsWithKw_self_append _ _))
          hqf (by omega))
    rw [show "error".toList.length + msg.length + 2 = msg.length + 7 from by
      rw [show "error".toList.length = 5 from rfl]; omega] at hgen
    exact hgen
  · intro msg file hnl hlen
    have hnl2 : '\n' ∉ "warning".toList ++ msg := by
      intro hx
      rcases List.mem_append.mp hx with hx | hx
      · exact absurd hx (by decide)
      · exact hnl hx
    have hb : ("warning".toList ++ msg).length + 1 < w64 := by
      have hc1 : ("warning".toList ++ msg).length = 7 + msg.length := by
        simp; omega
      have hc2 : w64 = 18446744073709551616 := by norm_num [w64]
      have hc3 : (2 : ℕ) ^ 32 = 4294967296 := by norm_num
      omega
    have hsh : ("warning".toList ++ (msg ++ ['\n'])) ++ [sentinel] =
        ("warning".toList ++ msg) ++ '\n' :: [sentinel] := by simp
    have hqf : hashQfLen (("warning".toList ++ (msg ++ ['\n'])) ++
        [sentinel]) = 1 + ("warning".toList ++ msg).length :=
      hashQfLen_eq rfl hsh hnl2 hb
    have hgen := tokenize_directive_general file "warning".toList msg
      .TK_ERROR
      (by
        rw [step_head (rfl :
          (('#' :: ("warning".toList ++ (msg ++ ['\n']))) ++ [sentinel]).drop
              initSt.pos =
            '#' :: (("warning".toList ++ (msg ++ ['\n'])) ++ [sentinel]))]
        rw [stepChar_pound]
        exact directiveStep_we rfl rfl (Or.inl (startsWithKw_self_append _ _))
          hqf (by omega))
    rw [show "warning".toList.length + msg.length + 2 = msg.length + 9 from by
      rw [show "warning".toList.length = 7 from rfl]; omega] at hgen
    exact hgen
  · intro msg file hnl hlen
    have hnl2 : '\n' ∉ "line".toList ++ msg := by
      intro hx
      rcases List.mem_append.mp hx with hx | hx
      · exact absurd hx (by decide)
      · exact hnl hx
    have hb : ("line".toList ++ msg).length + 1 < w64 := by
      have hc1 : ("line".toList ++ msg).length = 4 + msg.length := by
        simp; omega
      have hc2 : w64 = 18446744073709551616 := by norm_num [w64]
      have hc3 : (2 : ℕ) ^ 32 = 4294967296 := by norm_num
      omega
    have hsh : ("line".toList ++ (msg ++ ['\n'])) ++ [sentinel] =
        ("line".toList ++ msg) ++ '\n' :: [sentinel] := by simp
    have hqf : hashQfLen (("line".toList ++ (msg ++ ['\n'])) ++ [sentinel]) =
        1 + ("line".toList ++ msg).length :=
      hashQfLen_eq rfl hsh hnl2 hb
    have hgen := tokenize_directive_general file "line".toList msg
      .TK_HASHLINE
      (by
        rw [step_head (rfl :
          (('#' :: ("line".toList ++ (msg ++ ['\n']))) ++ [sentinel]).drop
              initSt.pos =
            '#' :: (("line".toList ++ (msg ++ ['\n'])) ++ [sentinel]))]
        rw [stepChar_pound]
        exact directiveStep_line rfl (startsWithKw_self_append _ _) hqf)
    rw [show "line".toList.length + msg.length + 2 = msg.length + 6 from by
      rw [show "line".toList.length = 4 from rfl]; omega] at hgen
    exact hgen

/-- C6 witness: `#error b` followed by a newline yields one error-kind token
whose lexeme is the whole line without the newline. -/
theorem c6_witness :
    tokenize ('#' :: ("error".toList ++ ([' ', 'b'] ++ ['\n']))) "f" =
      .ok [⟨.TK_ERROR, '#' :: ("error".toList ++ [' ', 'b']), "f", 1, [], 0⟩,
           ⟨.TK_EOF, [sentinel], "f", 2, ['\n'], 9⟩] :=
  c6_directive_line_capture.2.1 [' ', 'b'] "f" (by decide) (by decide)

end Flint
